import Mathlib

/-!
Verification development for the remote block store of `golongtail`
(`longtailstorelib/remotestore.go`).

The Go source is shallowly embedded: pure functions become Lean functions,
stateful code becomes explicit state passing, backend I/O outcomes become
explicit environment records, and the opaque `longtaillib` codec calls
(which live in a package of the same repository that is not part of the
sources at hand) are modelled from the specification as explicit outcome
parameters or as small concrete functions.  Machine integers are modelled
as `Nat` (hashes are 64-bit, handled with explicit `% 2 ^ 64` bounds where
they matter) and Go `error` values as `Option GoErr`.
-/

namespace RemoteStore

/-- Model of a Go `error` value.  `errnoErr n` stands for the longtail
errno-carrying errors (`longtaillib.ErrnoToError`), the named constructors
for the distinguished sentinel errors, and `wrap` for `errors.Wrapf`
(the message is irrelevant to every claim and is dropped). -/
inductive GoErr where
  | enoent
  | eacces
  | ebadf
  | eio
  | enomem
  | einval
  | errnoErr (errno : Nat)
  | wrap (e : GoErr)
  deriving DecidableEq, Repr

/-- POSIX errno values used by the longtail Go bindings. -/
def ENOENT : Nat := 2
/-- errno EIO. -/
def EIO : Nat := 5
/-- errno EBADF. -/
def EBADF : Nat := 9
/-- errno ENOMEM. -/
def ENOMEM : Nat := 12
/-- errno EACCES. -/
def EACCES : Nat := 13
/-- errno EINVAL. -/
def EINVAL : Nat := 22

/-- Modelled from the spec: `longtaillib.ErrnoToError(errno, fallback)`
(the longtail bindings are outside the given sources).  An errno of `0`
means success and maps to a `nil` error; any other errno produces an
error value carrying that errno. -/
def errnoToError (errno : Nat) (_fallback : GoErr) : Option GoErr :=
  if errno = 0 then none else some (GoErr.errnoErr errno)

/-- Modelled from the spec: `longtaillib.ErrorToErrno(err, defaultErrno)`.
A `nil` error maps to errno `0` (success); the sentinel errors map to
their errno; an errno-carrying error returns its errno; anything else
(including wrapped errors) falls back to the supplied default. -/
def errorToErrno (e : Option GoErr) (dflt : Nat) : Nat :=
  match e with
  | none => 0
  | some GoErr.enoent => ENOENT
  | some GoErr.eacces => EACCES
  | some GoErr.ebadf => EBADF
  | some GoErr.eio => EIO
  | some GoErr.enomem => ENOMEM
  | some GoErr.einval => EINVAL
  | some (GoErr.errnoErr n) => n
  | some (GoErr.wrap _) => dflt

/-- The payload of a `Longtail_StoredBlock`: the self-describing block
index data read off a stored block (hash, chunk count) together with the
block byte size used for the prefetch memory accounting. -/
structure StoredBlock where
  blockHash : Nat
  blockSize : Nat
  chunkCount : Nat
  deriving DecidableEq, Repr

/-- Model of the abstract `StoreIndex` payload: the multiset of block
hashes it records.  The codec treats it as opaque data. -/
abbrev StoreIndex := List Nat

/-- Model of a byte blob held by the backend: either an encoded stored
block, an encoded store index, or junk bytes (of a given length). -/
inductive Blob where
  | stored (sb : StoredBlock)
  | index (si : StoreIndex)
  | junk (len : Nat)
  deriving DecidableEq

/-- Byte length of a blob (used only by the byte-count statistics). -/
def blobLen : Blob → Nat
  | Blob.stored sb => sb.blockSize
  | Blob.index si => si.length
  | Blob.junk n => n

/-- Modelled from the spec: `longtaillib.ReadStoredBlockFromBuffer`.
Decoding succeeds (errno 0) exactly on blobs that encode a stored block;
everything else fails with errno `EIO`.  Mirrors Go's
`(storedBlock, errno)` multi-return. -/
def readStoredBlockFromBuffer : Blob → Option StoredBlock × Nat
  | Blob.stored sb => (some sb, 0)
  | _ => (none, EIO)

/-- The fixed-width statistics array of the store
(`longtaillib.BlockStoreStats`), restricted to the counters the code
touches; updated along every modelled operation exactly where the code
performs its atomic adds. -/
structure Stats where
  getCount : Nat := 0
  getRetryCount : Nat := 0
  getFailCount : Nat := 0
  getByteCount : Nat := 0
  getChunkCount : Nat := 0
  putCount : Nat := 0
  putRetryCount : Nat := 0
  putFailCount : Nat := 0
  putByteCount : Nat := 0
  putChunkCount : Nat := 0
  deriving DecidableEq, Repr

/-- The `AccessType` enumeration (`Init`, `ReadWrite`, `ReadOnly`). -/
inductive AccessType where
  | init
  | readWrite
  | readOnly
  deriving DecidableEq, Repr

/-! ## The block path scheme (`GetBlockPath`)

`GetBlockPath` formats the hash with `fmt.Sprintf("0x%016x.lsb", h)`,
shards with `filepath.Join(basePath, fileName[2:6])`, joins the file name
under that directory and replaces every backslash with a forward slash.
`filepath.Join` is the Go standard library; it is modelled here for unix
separators by its documented lexical algorithm (join the non-empty
elements with `/`, then `Clean`). -/

/-- Lowercase hexadecimal digit character for a value `0 ≤ n ≤ 15`. -/
def hexDigitChar : Nat → Char
  | 0 => '0' | 1 => '1' | 2 => '2' | 3 => '3'
  | 4 => '4' | 5 => '5' | 6 => '6' | 7 => '7'
  | 8 => '8' | 9 => '9' | 10 => 'a' | 11 => 'b'
  | 12 => 'c' | 13 => 'd' | 14 => 'e' | 15 => 'f'
  | _ => '?'

/-- The 16 lowercase hex digits of a 64-bit value
(Go `fmt.Sprintf("%016x", h)`): most significant first, zero padded.
Only the low 64 bits of `h` contribute. -/
def hex16Chars (h : Nat) : List Char :=
  (List.range 16).map (fun i => hexDigitChar (h / 16 ^ (15 - i) % 16))

/-- `fmt.Sprintf("0x%016x.lsb", blockHash)`. -/
def fileNameChars (h : Nat) : List Char :=
  '0' :: 'x' :: (hex16Chars h ++ ['.', 'l', 's', 'b'])

/-- Split a character list on `'/'`; leading, trailing or doubled
separators produce empty segments.  This is the segment view on which the
lexical algorithm of Go `path/filepath.Clean` operates. -/
def splitSlash : List Char → List (List Char)
  | [] => [[]]
  | c :: rest =>
    match splitSlash rest with
    | [] => [[c]]
    | seg :: segs => if c = '/' then [] :: seg :: segs else (c :: seg) :: segs

/-- Unfolding of `splitSlash` on a nonempty character list. -/
theorem splitSlash_cons (c : Char) (rest : List Char) :
    splitSlash (c :: rest) =
      match splitSlash rest with
      | [] => [[c]]
      | seg :: segs =>
        if c = '/' then [] :: seg :: segs else (c :: seg) :: segs := rfl

/-- Join segments with `'/'` (left inverse of `splitSlash`). -/
def joinSlash : List (List Char) → List Char
  | [] => []
  | [seg] => seg
  | seg :: segs => seg ++ '/' :: joinSlash segs

/-- One step of the lexical `Clean` algorithm of Go `path/filepath`
(unix separators); the stack holds the kept segments in reverse order.
Empty and `"."` segments are dropped; `".."` pops a poppable segment, is
dropped at the root of a rooted path, and is kept otherwise; every other
segment is pushed. -/
def cleanStep (rooted : Bool) (stack : List (List Char)) (seg : List Char) :
    List (List Char) :=
  if seg = [] ∨ seg = ['.'] then stack
  else if seg = ['.', '.'] then
    match stack with
    | [] => if rooted then [] else [seg]
    | top :: rest => if top = ['.', '.'] then seg :: stack else rest
  else seg :: stack

/-- Go `path/filepath.Clean` for unix separators, by its documented
lexical algorithm: split on separators, process the segments with
`cleanStep`, re-join; a rooted path keeps its leading separator and an
empty result becomes `"."`. -/
def goClean (s : List Char) : List Char :=
  match s with
  | [] => ['.']
  | c :: _ =>
    let rooted := c == '/'
    let out := ((splitSlash s).foldl (cleanStep rooted) []).reverse
    if rooted then '/' :: joinSlash out
    else if out = [] then ['.']
    else joinSlash out

/-- Go `path/filepath.Join` on two elements (unix separators): empty
elements are skipped and the slash-joined remainder is cleaned; the
result is empty when both elements are empty. -/
def goJoin (a b : List Char) : List Char :=
  if a = [] then (if b = [] then [] else goClean b)
  else goClean (a ++ '/' :: b)

/-- The character action of `strings.Replace(name, "\\", "/", -1)`. -/
def bsToSlash (c : Char) : Char := if c = '\\' then '/' else c

/-- `GetBlockPath` (remotestore.go): the backend key of a block —
`fileName := fmt.Sprintf("0x%016x.lsb", blockHash)`, the directory shard
`fileName[2:6]` joined under the base path, the file name joined under
that directory, and every backslash replaced by a forward slash. -/
def GetBlockPath (basePath : String) (blockHash : Nat) : String :=
  let fileName := fileNameChars blockHash
  let dir := goJoin basePath.data ((fileName.drop 2).take 4)
  let name := goJoin dir fileName
  ⟨name.map bsToSlash⟩

/-- Unfolding of `GetBlockPath` with the local bindings substituted. -/
theorem GetBlockPath_def (b : String) (h : Nat) :
    GetBlockPath b h =
      ⟨(goJoin (goJoin b.data (((fileNameChars h).drop 2).take 4))
        (fileNameChars h)).map bsToSlash⟩ := rfl

/-- A character that survives both path joining and the backslash
replacement verbatim: neither a separator nor a backslash. -/
def pathChar (c : Char) : Bool := c != '/' && c != '\\'

/-- A path segment that the lexical `Clean` keeps verbatim: nonempty, not
`"."` or `".."`, and free of separators and backslashes. -/
def goodSeg (seg : List Char) : Bool :=
  !seg.isEmpty && seg != ['.'] && seg != ['.', '.'] && seg.all pathChar

/-- Character-list form of `goodBase`. -/
def goodBaseL (b : List Char) : Bool :=
  match splitSlash b with
  | [] => false
  | [] :: rest => !rest.isEmpty && rest.all goodSeg
  | segs => segs.all goodSeg

/-- Base paths on which `filepath.Join` acts by plain concatenation: the
path splits into segments that `Clean` keeps verbatim, with an optional
leading empty segment for a rooted path. -/
def goodBase (b : String) : Bool := goodBaseL b.data

/-- The block path as the specification words it, with the directory
shard corrected to the first four hex digits — i.e. characters 2..5 of
the *file name* `"0x" ++ hex16 ++ ".lsb"`:
`base + "/" + hex4 + "/0x" + hex16 + ".lsb"`. -/
def specBlockPath (b : String) (h : Nat) : String :=
  ⟨b.data ++ '/' :: ((hex16Chars h).take 4 ++ '/' :: '0' :: 'x' ::
    (hex16Chars h ++ ['.', 'l', 's', 'b']))⟩

/-- The block path exactly as the claim words it: the directory shard is
"characters 2..5 of the 16-hex-digit representation" of the hash
(0-based characters 2,3,4,5 of `hex16`, i.e. its 3rd–6th digits). -/
def specBlockPathClaimed (b : String) (h : Nat) : String :=
  ⟨b.data ++ '/' :: (((hex16Chars h).drop 2).take 4 ++ '/' :: '0' :: 'x' ::
    (hex16Chars h ++ ['.', 'l', 's', 'b']))⟩

theorem splitSlash_ne_nil (s : List Char) : splitSlash s ≠ [] := by
  cases s with
  | nil => simp [splitSlash]
  | cons c rest =>
    simp only [splitSlash]
    cases splitSlash rest with
    | nil => simp
    | cons seg segs => by_cases hc : c = '/' <;> simp [hc]

theorem splitSlash_append (a c : List Char) :
    splitSlash (a ++ '/' :: c) = splitSlash a ++ splitSlash c := by
  induction a with
  | nil =>
    simp only [List.nil_append, splitSlash]
    cases hsp : splitSlash c with
    | nil => exact absurd hsp (splitSlash_ne_nil c)
    | cons seg segs => simp [splitSlash]
  | cons x xs ih =>
    cases hsp : splitSlash xs with
    | nil => exact absurd hsp (splitSlash_ne_nil xs)
    | cons seg segs =>
      rw [List.cons_append, splitSlash_cons x (xs ++ '/' :: c), ih, hsp,
        splitSlash_cons x xs, hsp, List.cons_append]
      by_cases hx : x = '/' <;> simp [hx]

theorem splitSlash_no_slash {seg : List Char} (h : '/' ∉ seg) :
    splitSlash seg = [seg] := by
  induction seg with
  | nil => simp [splitSlash]
  | cons c rest ih =>
    have hc : c ≠ '/' := fun hc => h (hc ▸ List.mem_cons_self c rest)
    have hrest : '/' ∉ rest := fun hr => h (List.mem_cons_of_mem c hr)
    simp only [splitSlash, ih hrest]
    simp [fun hc2 => hc (hc2 : c = '/')]

theorem joinSlash_splitSlash (s : List Char) : joinSlash (splitSlash s) = s := by
  induction s with
  | nil => simp [splitSlash, joinSlash]
  | cons c rest ih =>
    unfold splitSlash
    cases hsp : splitSlash rest with
    | nil => exact absurd hsp (splitSlash_ne_nil rest)
    | cons seg segs =>
      rw [hsp] at ih
      by_cases hc : c = '/'
      · subst hc
        simpa [joinSlash] using ih
      · simp only [if_neg hc]
        cases segs with
        | nil =>
          have hseg : seg = rest := ih
          rw [show joinSlash [c :: seg] = c :: seg from rfl, hseg]
        | cons s2 ss =>
          rw [show joinSlash ((c :: seg) :: s2 :: ss) =
            (c :: seg) ++ '/' :: joinSlash (s2 :: ss) from rfl]
          rw [show joinSlash (seg :: s2 :: ss) =
            seg ++ '/' :: joinSlash (s2 :: ss) from rfl] at ih
          simp [ih]

theorem joinSlash_append_singleton (xs : List (List Char)) (hne : xs ≠ [])
    (y : List Char) : joinSlash (xs ++ [y]) = joinSlash xs ++ '/' :: y := by
  induction xs with
  | nil => exact absurd rfl hne
  | cons a as ih =>
    cases as with
    | nil => simp [joinSlash]
    | cons b bs =>
      have := ih (by simp)
      simp only [List.cons_append, joinSlash] at this ⊢
      simp [this]

theorem goodSeg_iff (seg : List Char) : goodSeg seg = true ↔
    seg ≠ [] ∧ seg ≠ ['.'] ∧ seg ≠ ['.', '.'] ∧ ∀ c ∈ seg, c ≠ '/' ∧ c ≠ '\\' := by
  simp [goodSeg, pathChar, List.isEmpty_iff, List.all_eq_true, and_assoc]

theorem foldl_cleanStep_good (rooted : Bool) (segs : List (List Char))
    (hall : ∀ s ∈ segs, goodSeg s = true) (stack : List (List Char)) :
    segs.foldl (cleanStep rooted) stack = segs.reverse ++ stack := by
  induction segs generalizing stack with
  | nil => simp
  | cons a as ih =>
    obtain ⟨h1, h2, h3, _⟩ := (goodSeg_iff a).mp (hall a (List.mem_cons_self a as))
    have hstep : cleanStep rooted stack a = a :: stack := by
      unfold cleanStep
      rw [if_neg (by simp [h1, h2]), if_neg h3]
    rw [List.foldl_cons, hstep,
      ih (fun s hs => hall s (List.mem_cons_of_mem a hs)) (a :: stack)]
    simp

/-- Splitting a good base: either a relative base whose segments are all
good (head nonempty), or a rooted base (leading empty segment) whose
remaining segments are nonempty and all good. -/
theorem goodBaseL_cases {b : List Char} (hb : goodBaseL b = true) :
    (∃ seg segs, splitSlash b = seg :: segs ∧ seg ≠ [] ∧
      (∀ s ∈ seg :: segs, goodSeg s = true)) ∨
    (∃ segs, splitSlash b = [] :: segs ∧ segs ≠ [] ∧
      (∀ s ∈ segs, goodSeg s = true)) := by
  unfold goodBaseL at hb
  cases hsp : splitSlash b with
  | nil => rw [hsp] at hb; exact absurd hb (by simp)
  | cons seg segs =>
    rw [hsp] at hb
    cases seg with
    | nil =>
      right
      refine ⟨segs, rfl, ?_, ?_⟩
      · intro hnil
        subst hnil
        simp at hb
      · cases segs with
        | nil => simp at hb
        | cons t ts =>
          simp only [Bool.and_eq_true, List.all_eq_true] at hb
          exact hb.2
    | cons c cs =>
      left
      refine ⟨c :: cs, segs, rfl, by simp, ?_⟩
      simpa only [List.all_eq_true] using hb

theorem goodBaseL_ne_nil {b : List Char} (hb : goodBaseL b = true) : b ≠ [] := by
  intro hnil
  subst hnil
  simp [goodBaseL, splitSlash] at hb

/-- The split's first segment is empty iff the path starts with a slash. -/
theorem splitSlash_head_empty_iff {c : Char} (rest : List Char) :
    (∃ segs, splitSlash (c :: rest) = [] :: segs) ↔ c = '/' := by
  unfold splitSlash
  cases hsp : splitSlash rest with
  | nil => exact absurd hsp (splitSlash_ne_nil rest)
  | cons seg segs =>
    by_cases hc : c = '/' <;> simp [hc]

theorem joinSlash_rooted (segs : List (List Char)) (h : segs ≠ []) :
    joinSlash ([] :: segs) = '/' :: joinSlash segs := by
  cases segs with
  | nil => exact absurd rfl h
  | cons t ts => simp [joinSlash]

/-- Unfolding of `goClean` on a nonempty character list. -/
theorem goClean_cons (c : Char) (rest : List Char) :
    goClean (c :: rest) =
      (if (c == '/') then
        '/' :: joinSlash
          (((splitSlash (c :: rest)).foldl (cleanStep (c == '/')) []).reverse)
      else if (((splitSlash (c :: rest)).foldl
          (cleanStep (c == '/')) []).reverse) = [] then ['.']
      else joinSlash
        (((splitSlash (c :: rest)).foldl (cleanStep (c == '/')) []).reverse)) :=
  rfl

/-- On a base that splits into verbatim-kept segments, appending a
verbatim-kept segment commutes with `Clean`: the cleaned path is the
plain concatenation. -/
theorem goClean_good_append {b seg : List Char} (hb : goodBaseL b = true)
    (hs : goodSeg seg = true) :
    goClean (b ++ '/' :: seg) = b ++ '/' :: seg := by
  have hbne : b ≠ [] := goodBaseL_ne_nil hb
  obtain ⟨c, rest, rfl⟩ : ∃ c rest, b = c :: rest := by
    cases b with
    | nil => exact absurd rfl hbne
    | cons c rest => exact ⟨c, rest, rfl⟩
  have hsegslash : '/' ∉ seg := fun hmem =>
    (((goodSeg_iff seg).mp hs).2.2.2 '/' hmem).1 rfl
  have hsplit : splitSlash (c :: (rest ++ '/' :: seg)) =
      splitSlash (c :: rest) ++ [seg] := by
    rw [← List.cons_append, splitSlash_append, splitSlash_no_slash hsegslash]
  have hjoin : joinSlash (splitSlash (c :: rest)) = c :: rest :=
    joinSlash_splitSlash (c :: rest)
  rw [List.cons_append, goClean_cons, hsplit]
  rcases goodBaseL_cases hb with ⟨seg0, segs, hsp, hne0, hall⟩ |
      ⟨segs, hsp, hsne, hall⟩
  · -- relative base: the head character is not a slash
    have hcslash : ¬ c = '/' := by
      intro hc
      obtain ⟨segs2, hsp2⟩ := (splitSlash_head_empty_iff rest).mpr hc
      rw [hsp2] at hsp
      exact hne0 (by injection hsp with h1 _; exact h1.symm)
    have hallgood : ∀ s ∈ (seg0 :: segs) ++ [seg], goodSeg s = true := by
      intro s hsmem
      rcases List.mem_append.mp hsmem with hin | hin
      · exact hall s hin
      · simp only [List.mem_singleton] at hin
        exact hin ▸ hs
    rw [hsp, foldl_cleanStep_good _ _ hallgood]
    have hbeq : (c == '/') = false := by simpa using hcslash
    rw [hbeq]
    simp only [List.append_nil, List.reverse_reverse, Bool.false_eq_true,
      if_false]
    rw [if_neg (by simp), joinSlash_append_singleton _ (by simp), ← hsp, hjoin,
      List.cons_append]
  · -- rooted base: the head character is a slash
    have hc : c = '/' := (splitSlash_head_empty_iff rest).mp ⟨segs, hsp⟩
    have hallgood : ∀ s ∈ segs ++ [seg], goodSeg s = true := by
      intro s hsmem
      rcases List.mem_append.mp hsmem with hin | hin
      · exact hall s hin
      · simp only [List.mem_singleton] at hin
        exact hin ▸ hs
    rw [hsp]
    have hstep0 : List.foldl (cleanStep (c == '/')) [] (([] :: segs) ++ [seg]) =
        List.foldl (cleanStep (c == '/')) [] (segs ++ [seg]) := by
      simp [cleanStep]
    rw [hstep0, foldl_cleanStep_good _ _ hallgood]
    have hbeq : (c == '/') = true := by simp [hc]
    rw [hbeq]
    simp only [if_true, List.append_nil, List.reverse_reverse]
    rw [joinSlash_append_singleton _ hsne]
    have hb2 : c :: rest = '/' :: joinSlash segs := by
      rw [← hjoin, hsp, joinSlash_rooted segs hsne]
    have hshape : ('/' :: (joinSlash segs ++ '/' :: seg) : List Char) =
        ('/' :: joinSlash segs) ++ '/' :: seg := rfl
    rw [hshape, ← hb2, List.cons_append]

theorem hexDigitChar_ne (d : Nat) :
    hexDigitChar d ≠ '/' ∧ hexDigitChar d ≠ '\\' := by
  unfold hexDigitChar
  split <;> decide

theorem hex16Chars_length (h : Nat) : (hex16Chars h).length = 16 := by
  simp [hex16Chars]

theorem hex16Chars_mem {h : Nat} {c : Char} (hc : c ∈ hex16Chars h) :
    c ≠ '/' ∧ c ≠ '\\' := by
  simp only [hex16Chars, List.mem_map] at hc
  obtain ⟨i, _, rfl⟩ := hc
  exact hexDigitChar_ne _

theorem goodSeg_hexTake (h : Nat) : goodSeg ((hex16Chars h).take 4) = true := by
  rw [goodSeg_iff]
  have hlen : ((hex16Chars h).take 4).length = 4 := by
    simp [List.length_take, hex16Chars_length]
  refine ⟨?_, ?_, ?_, ?_⟩
  · intro hnil; rw [hnil] at hlen; simp at hlen
  · intro heq; rw [heq] at hlen; simp at hlen
  · intro heq; rw [heq] at hlen; simp at hlen
  · intro c hc
    exact hex16Chars_mem (List.mem_of_mem_take hc)

theorem fileNameChars_length (h : Nat) : (fileNameChars h).length = 22 := by
  simp [fileNameChars, hex16Chars_length]

theorem fileNameChars_mem {h : Nat} {c : Char} (hc : c ∈ fileNameChars h) :
    c ≠ '/' ∧ c ≠ '\\' := by
  simp only [fileNameChars, List.mem_cons, List.mem_append] at hc
  rcases hc with rfl | rfl | hmem | rfl | rfl | rfl | rfl | hnil
  · decide
  · decide
  · exact hex16Chars_mem hmem
  · decide
  · decide
  · decide
  · decide
  · simp at hnil

theorem goodSeg_fileName (h : Nat) : goodSeg (fileNameChars h) = true := by
  rw [goodSeg_iff]
  have hlen := fileNameChars_length h
  refine ⟨?_, ?_, ?_, fun c hc => fileNameChars_mem hc⟩
  · intro hnil; rw [hnil] at hlen; simp at hlen
  · intro heq; rw [heq] at hlen; simp at hlen
  · intro heq; rw [heq] at hlen; simp at hlen

theorem fileName_slice (h : Nat) :
    ((fileNameChars h).drop 2).take 4 = (hex16Chars h).take 4 := by
  show (hex16Chars h ++ ['.', 'l', 's', 'b']).take 4 = (hex16Chars h).take 4
  rw [List.take_append_of_le_length (by simp [hex16Chars_length])]

/-- Every character of a list lies in one of its slash-split segments or
is a separator. -/
theorem mem_splitSlash {l : List Char} {c : Char} (hc : c ∈ l) :
    c = '/' ∨ ∃ s ∈ splitSlash l, c ∈ s := by
  induction l with
  | nil => simp at hc
  | cons x xs ih =>
    rw [splitSlash_cons]
    cases hsp : splitSlash xs with
    | nil => exact absurd hsp (splitSlash_ne_nil xs)
    | cons seg segs =>
      rcases List.mem_cons.mp hc with rfl | hmem
      · by_cases hx : c = '/'
        · exact Or.inl hx
        · refine Or.inr ?_
          simp only [if_neg hx]
          exact ⟨c :: seg, by simp, by simp⟩
      · rcases ih hmem with hc1 | ⟨s, hs1, hs2⟩
        · exact Or.inl hc1
        · refine Or.inr ?_
          rw [hsp] at hs1
          by_cases hx : x = '/'
          · simp only [if_pos hx]
            exact ⟨s, List.mem_cons_of_mem _ hs1, hs2⟩
          · simp only [if_neg hx]
            rcases List.mem_cons.mp hs1 with rfl | hs3
            · exact ⟨x :: s, by simp, List.mem_cons_of_mem _ hs2⟩
            · exact ⟨s, by simp [hs3], hs2⟩

theorem goodBaseL_no_backslash {b : List Char} (hb : goodBaseL b = true) :
    ∀ c ∈ b, c ≠ '\\' := by
  intro c hc heq
  subst heq
  rcases mem_splitSlash hc with h1 | ⟨s, hs1, hs2⟩
  · exact absurd h1 (by decide)
  · have hgood : goodSeg s = true := by
      rcases goodBaseL_cases hb with ⟨seg0, segs, hsp, _, hall⟩ |
          ⟨segs, hsp, _, hall⟩
      · rw [hsp] at hs1
        exact hall s hs1
      · rw [hsp] at hs1
        rcases List.mem_cons.mp hs1 with rfl | hs3
        · exact absurd hs2 (by simp)
        · exact hall s hs3
    exact (((goodSeg_iff s).mp hgood).2.2.2 _ hs2).2 rfl

theorem map_bsToSlash_of_no_backslash {l : List Char}
    (h : ∀ c ∈ l, c ≠ '\\') : l.map bsToSlash = l := by
  induction l with
  | nil => rfl
  | cons a as ih =>
    rw [List.map_cons, show bsToSlash a = a from
        if_neg (h a (List.mem_cons_self a as)),
      ih (fun c hc => h c (List.mem_cons_of_mem a hc))]

theorem mem_map_bsToSlash {l : List Char} :
    ∀ c ∈ l.map bsToSlash, c ≠ '\\' := by
  intro c hc
  simp only [List.mem_map] at hc
  obtain ⟨x, _, rfl⟩ := hc
  unfold bsToSlash
  by_cases hx : x = '\\'
  · rw [if_pos hx]; decide
  · rw [if_neg hx]; exact hx

theorem goodBaseL_append {b seg : List Char} (hb : goodBaseL b = true)
    (hs : goodSeg seg = true) : goodBaseL (b ++ '/' :: seg) = true := by
  have hsegslash : '/' ∉ seg := fun hmem =>
    (((goodSeg_iff seg).mp hs).2.2.2 '/' hmem).1 rfl
  have hsplit : splitSlash (b ++ '/' :: seg) = splitSlash b ++ [seg] := by
    rw [splitSlash_append, splitSlash_no_slash hsegslash]
  rcases goodBaseL_cases hb with ⟨seg0, segs, hsp, hne0, hall⟩ |
      ⟨segs, hsp, hsne, hall⟩
  · obtain ⟨c, cs, rfl⟩ : ∃ c cs, seg0 = c :: cs := by
      cases seg0 with
      | nil => exact absurd rfl hne0
      | cons c cs => exact ⟨c, cs, rfl⟩
    unfold goodBaseL
    rw [hsplit, hsp, List.cons_append]
    show ((c :: cs) :: (segs ++ [seg])).all goodSeg = true
    simp only [List.all_eq_true]
    intro s hsmem
    rcases List.mem_cons.mp hsmem with rfl | hs3
    · exact hall _ (List.mem_cons_self _ _)
    · rcases List.mem_append.mp hs3 with hin | hin
      · exact hall s (List.mem_cons_of_mem _ hin)
      · simp only [List.mem_singleton] at hin
        exact hin ▸ hs
  · unfold goodBaseL
    rw [hsplit, hsp, List.cons_append]
    show (!(segs ++ [seg]).isEmpty && (segs ++ [seg]).all goodSeg) = true
    simp only [Bool.and_eq_true, List.all_eq_true]
    refine ⟨by simp, ?_⟩
    intro s hsmem
    rcases List.mem_append.mp hsmem with hin | hin
    · exact hall s hin
    · simp only [List.mem_singleton] at hin
      exact hin ▸ hs

/-- C3 (amended).  For every base path that splits into verbatim-kept
segments (in particular `"chunks"`, the only base the store uses) and
every hash, `GetBlockPath` returns
`base + "/" + hex4 + "/0x" + hex16 + ".lsb"`, where `hex16` is the
lowercase 16-digit hexadecimal representation of the hash and `hex4` is
its *first four* digits — equivalently characters 2..5 of the file name
`"0x" + hex16 + ".lsb"`; the result contains no backslash, and the full
16-digit representation of the hash appears in the returned path. -/
theorem GetBlockPath_correct (b : String) (h : Nat) (hb : goodBase b = true) :
    GetBlockPath b h = specBlockPath b h ∧
    (∀ c ∈ (GetBlockPath b h).data, c ≠ '\\') ∧
    hex16Chars h <:+: (GetBlockPath b h).data := by
  have hb2 : goodBaseL b.data = true := hb
  have hbne : b.data ≠ [] := goodBaseL_ne_nil hb2
  have hdir : goJoin b.data (((fileNameChars h).drop 2).take 4) =
      b.data ++ '/' :: (hex16Chars h).take 4 := by
    rw [fileName_slice]
    unfold goJoin
    rw [if_neg hbne, goClean_good_append hb2 (goodSeg_hexTake h)]
  have hdirgood : goodBaseL (b.data ++ '/' :: (hex16Chars h).take 4) = true :=
    goodBaseL_append hb2 (goodSeg_hexTake h)
  have hname : goJoin (b.data ++ '/' :: (hex16Chars h).take 4)
      (fileNameChars h) =
      (b.data ++ '/' :: (hex16Chars h).take 4) ++ '/' :: fileNameChars h := by
    unfold goJoin
    rw [if_neg (by simp), goClean_good_append hdirgood (goodSeg_fileName h)]
  have hnb : ∀ c ∈ (b.data ++ '/' :: (hex16Chars h).take 4) ++
      '/' :: fileNameChars h, c ≠ '\\' := by
    intro c hc
    rcases List.mem_append.mp hc with hc1 | hc2
    · rcases List.mem_append.mp hc1 with hcb | hcs
      · exact goodBaseL_no_backslash hb2 c hcb
      · rcases List.mem_cons.mp hcs with rfl | hct
        · decide
        · exact (hex16Chars_mem (List.mem_of_mem_take hct)).2
    · rcases List.mem_cons.mp hc2 with rfl | hcf
      · decide
      · exact (fileNameChars_mem hcf).2
  have hlists : (specBlockPath b h).data =
      (b.data ++ '/' :: (hex16Chars h).take 4) ++ '/' :: fileNameChars h := by
    show b.data ++ '/' :: ((hex16Chars h).take 4 ++ '/' :: '0' :: 'x' ::
      (hex16Chars h ++ ['.', 'l', 's', 'b'])) = _
    simp [fileNameChars, List.append_assoc]
  have heq : GetBlockPath b h = specBlockPath b h := by
    rw [GetBlockPath_def, hdir, hname, map_bsToSlash_of_no_backslash hnb]
    exact congrArg String.mk hlists.symm
  refine ⟨heq, ?_, ?_⟩
  · rw [heq]
    intro c hc
    rw [hlists] at hc
    exact hnb c hc
  · rw [heq]
    show hex16Chars h <:+: (specBlockPath b h).data
    rw [hlists]
    refine ⟨(b.data ++ '/' :: (hex16Chars h).take 4) ++ ['/', '0', 'x'],
      ['.', 'l', 's', 'b'], ?_⟩
    simp [fileNameChars, List.append_assoc]

/-- C3 witness: the amended statement evaluated at base `"chunks"` and
hash `0x0123456789abcdef`. -/
theorem GetBlockPath_correct_witness :
    goodBase "chunks" = true ∧
    GetBlockPath "chunks" 81985529216486895 =
      specBlockPath "chunks" 81985529216486895 :=
  ⟨by decide, (GetBlockPath_correct "chunks" 81985529216486895 (by decide)).1⟩

/-- C3 counterexample: with the directory shard read off the 16-digit hex
representation itself (characters 2..5, as the claim words it), the
predicted path `chunks/2345/0x0123456789abcdef.lsb` differs from the
path `chunks/0123/0x0123456789abcdef.lsb` the code produces. -/
theorem GetBlockPath_claimed_counterexample :
    GetBlockPath "chunks" 81985529216486895 ≠
      specBlockPathClaimed "chunks" 81985529216486895 := by decide

/-! ## Retry policy (`readBlobWithRetry`) -/

/-- Backend I/O events recorded by the retry ladder: one `readAttempt`
per `objHandle.Read()` call and one `sleepMs` per `time.Sleep`. -/
inductive IoEv where
  | readAttempt
  | sleepMs (ms : Nat)
  deriving DecidableEq, Repr

/-- Environment of one `readBlobWithRetry` call: the outcomes the backend
object would return — the error of `client.NewObject`, the outcome of
`objHandle.Exists()`, and the `(bytes, err)` outcome of each of the up to
four successive `objHandle.Read()` attempts. -/
structure ReadBlobEnv where
  newObjErr : Option GoErr := none
  existsErr : Option GoErr := none
  existsVal : Bool := true
  read0Data : Option Blob := none
  read0Err : Option GoErr := none
  read1Data : Option Blob := none
  read1Err : Option GoErr := none
  read2Data : Option Blob := none
  read2Err : Option GoErr := none
  read3Data : Option Blob := none
  read3Err : Option GoErr := none

/-- `readBlobWithRetry` (remotestore.go): an existence check first (an
absent object short-circuits with `ENOENT` and retry count 0, never
retried), then a read; on failure one immediate retry, then one after a
500 ms sleep, then one after a 2 s sleep.  Returns
`(bytes, retryCount, err)`, here together with the I/O event trace. -/
def readBlobWithRetry (env : ReadBlobEnv) :
    Option Blob × Nat × Option GoErr × List IoEv :=
  match env.newObjErr with
  | some e => (none, 0, some e, [])
  | none =>
    match env.existsErr with
    | some e => (none, 0, some e, [])
    | none =>
      if env.existsVal = false then (none, 0, some GoErr.enoent, [])
      else
        match env.read0Err with
        | none => (env.read0Data, 0, none, [IoEv.readAttempt])
        | some _ =>
          match env.read1Err with
          | none => (env.read1Data, 1, none,
              [IoEv.readAttempt, IoEv.readAttempt])
          | some _ =>
            match env.read2Err with
            | none => (env.read2Data, 2, none,
                [IoEv.readAttempt, IoEv.readAttempt, IoEv.sleepMs 500,
                  IoEv.readAttempt])
            | some _ =>
              match env.read3Err with
              | none => (env.read3Data, 3, none,
                  [IoEv.readAttempt, IoEv.readAttempt, IoEv.sleepMs 500,
                    IoEv.readAttempt, IoEv.sleepMs 2000, IoEv.readAttempt])
              | some e3 => (none, 3, some e3,
                  [IoEv.readAttempt, IoEv.readAttempt, IoEv.sleepMs 500,
                    IoEv.readAttempt, IoEv.sleepMs 2000, IoEv.readAttempt])

/-- C7.  `readBlobWithRetry`: a failed existence check returns not-found
with retry count 0 and performs no read; otherwise the first successful
read returns its bytes with the number of retries consumed (0–3), the
first retry immediate, the second after 500 ms, the third after 2 s, and
exhaustion returns the final read's error with retry count 3. -/
theorem readBlobWithRetry_correct (env : ReadBlobEnv)
    (hobj : env.newObjErr = none) (hee : env.existsErr = none) :
    (env.existsVal = false →
      readBlobWithRetry env = (none, 0, some GoErr.enoent, [])) ∧
    (env.existsVal = true → env.read0Err = none →
      readBlobWithRetry env =
        (env.read0Data, 0, none, [IoEv.readAttempt])) ∧
    (∀ e0, env.existsVal = true → env.read0Err = some e0 →
      env.read1Err = none →
      readBlobWithRetry env =
        (env.read1Data, 1, none, [IoEv.readAttempt, IoEv.readAttempt])) ∧
    (∀ e0 e1, env.existsVal = true → env.read0Err = some e0 →
      env.read1Err = some e1 → env.read2Err = none →
      readBlobWithRetry env =
        (env.read2Data, 2, none,
          [IoEv.readAttempt, IoEv.readAttempt, IoEv.sleepMs 500,
            IoEv.readAttempt])) ∧
    (∀ e0 e1 e2, env.existsVal = true → env.read0Err = some e0 →
      env.read1Err = some e1 → env.read2Err = some e2 →
      env.read3Err = none →
      readBlobWithRetry env =
        (env.read3Data, 3, none,
          [IoEv.readAttempt, IoEv.readAttempt, IoEv.sleepMs 500,
            IoEv.readAttempt, IoEv.sleepMs 2000, IoEv.readAttempt])) ∧
    (∀ e0 e1 e2 e3, env.existsVal = true → env.read0Err = some e0 →
      env.read1Err = some e1 → env.read2Err = some e2 →
      env.read3Err = some e3 →
      readBlobWithRetry env =
        (none, 3, some e3,
          [IoEv.readAttempt, IoEv.readAttempt, IoEv.sleepMs 500,
            IoEv.readAttempt, IoEv.sleepMs 2000, IoEv.readAttempt])) := by
  refine ⟨?_, ?_, ?_, ?_, ?_, ?_⟩
  · intro hev
    simp [readBlobWithRetry, hobj, hee, hev]
  · intro hev h0
    simp [readBlobWithRetry, hobj, hee, hev, h0]
  · intro e0 hev h0 h1
    simp [readBlobWithRetry, hobj, hee, hev, h0, h1]
  · intro e0 e1 hev h0 h1 h2
    simp [readBlobWithRetry, hobj, hee, hev, h0, h1, h2]
  · intro e0 e1 e2 hev h0 h1 h2 h3
    simp [readBlobWithRetry, hobj, hee, hev, h0, h1, h2, h3]
  · intro e0 e1 e2 e3 hev h0 h1 h2 h3
    simp [readBlobWithRetry, hobj, hee, hev, h0, h1, h2, h3]

/-- C7 witness: a concrete run — object exists, the first two reads fail
and the third (after the 500 ms sleep) succeeds; two retries consumed. -/
theorem readBlobWithRetry_correct_witness :
    readBlobWithRetry
      { existsVal := true, read0Err := some GoErr.eio,
        read1Err := some GoErr.eio, read2Err := none,
        read2Data := some (Blob.junk 7) } =
      (some (Blob.junk 7), 2, none,
        [IoEv.readAttempt, IoEv.readAttempt, IoEv.sleepMs 500,
          IoEv.readAttempt]) :=
  (readBlobWithRetry_correct _ rfl rfl).2.2.2.1 GoErr.eio GoErr.eio
    rfl rfl rfl rfl

/-! ## `getStoredBlock` -/

/-- `getStoredBlock` (remotestore.go): count the call, read the blob with
retries (at key `GetBlockPath "chunks" blockHash`), fail on read error or
nil data, decode, count the bytes, and reject a decoded block whose own
hash differs from the requested one with `EBADF`; each failure path
increments the fail counter once. -/
def getStoredBlock (stats : Stats) (env : ReadBlobEnv) (blockHash : Nat) :
    Stats × Option StoredBlock × Option GoErr :=
  let stats1 := { stats with getCount := stats.getCount + 1 }
  match readBlobWithRetry env with
  | (storedBlockData, retryCount, err, _) =>
    let stats2 :=
      { stats1 with getRetryCount := stats1.getRetryCount + retryCount }
    match err, storedBlockData with
    | some e, _ =>
      ({ stats2 with getFailCount := stats2.getFailCount + 1 }, none, some e)
    | none, none =>
      ({ stats2 with getFailCount := stats2.getFailCount + 1 }, none, none)
    | none, some blob =>
      match readStoredBlockFromBuffer blob with
      | (sbOpt, errno) =>
        if errno ≠ 0 then
          ({ stats2 with getFailCount := stats2.getFailCount + 1 }, none,
            errnoToError errno GoErr.eio)
        else
          let stats3 :=
            { stats2 with getByteCount := stats2.getByteCount + blobLen blob }
          match sbOpt with
          | none =>
            -- unreachable: errno 0 always carries a decoded block
            (stats3, none, none)
          | some sb =>
            if sb.blockHash ≠ blockHash then
              ({ stats3 with getFailCount := stats3.getFailCount + 1 }, none,
                errnoToError EBADF GoErr.ebadf)
            else
              ({ stats3 with
                  getChunkCount := stats3.getChunkCount + sb.chunkCount },
                some sb, none)

/-! ## The prefetch cache

`remoteStore.prefetchBlocks` is a Go map from block hash to
`*pendingPrefetchedBlock`; an entry may hold `nil` (a tombstone).  It is
modelled as an association list of `(hash, Option Slot)` pairs; a `nil`
slot pointer is `none`.  The mutex-guarded sections of `fetchBlock`,
`prefetchBlock` and `flushPrefetch` become explicit state transformers;
backend reads between them are environment parameters. -/

/-- `pendingPrefetchedBlock`: an optional completed block (the invalid
`Longtail_StoredBlock{}` is `none`) and the queued waiter callbacks
(identified by opaque numbers, in arrival order). -/
structure Slot where
  storedBlock : Option StoredBlock
  completeCallbacks : List Nat
  deriving DecidableEq, Repr

/-- The cache map: hash to slot pointer (`none` models a `nil` entry). -/
abbrev CacheMap := List (Nat × Option Slot)

/-- Go map read with presence flag: `v, ok := m[k]` is `mapGet m k`
(`none` for absent, `some v` for present with value `v`). -/
def mapGet : CacheMap → Nat → Option (Option Slot)
  | [], _ => none
  | p :: rest, k => if p.1 = k then some p.2 else mapGet rest k

/-- Go map write `m[k] = v` (replaces the binding or appends it). -/
def mapSet : CacheMap → Nat → Option Slot → CacheMap
  | [], k, v => [(k, v)]
  | p :: rest, k, v => if p.1 = k then (k, v) :: rest else p :: mapSet rest k v

/-- Go `delete(m, k)`. -/
def mapDel : CacheMap → Nat → CacheMap
  | [], _ => []
  | p :: rest, k => if p.1 = k then mapDel rest k else p :: mapDel rest k

/-- Bytes a cache entry holds: the size of a completed block, else 0. -/
def slotBytes : Option Slot → Nat
  | none => 0
  | some s =>
    match s.storedBlock with
    | none => 0
    | some b => b.blockSize

/-- Total bytes held in completed-but-unclaimed cache slots. -/
def cacheBytes (m : CacheMap) : Nat := (m.map (fun p => slotBytes p.2)).sum

/-- `GetBlockSize` of a possibly-invalid stored block handle. -/
def blockSizeOf : Option StoredBlock → Nat
  | none => 0
  | some b => b.blockSize

/-- The mutable cache state: the map and the signed `prefetchMemory`
counter (`int64` in Go, updated with atomic adds). -/
structure CacheState where
  prefetchBlocks : CacheMap
  prefetchMemory : Int
  deriving DecidableEq, Repr

/-- Well-formedness of the association-list encoding: one entry per key
(always true of a Go map). -/
def keysNodup (m : CacheMap) : Prop := (m.map Prod.fst).Nodup

instance (m : CacheMap) : Decidable (keysNodup m) :=
  inferInstanceAs (Decidable (List.Nodup _))

/-- The memory-budget invariant: `prefetchMemory` equals the bytes held
in completed-but-unclaimed cache slots. -/
def memInv (st : CacheState) : Prop :=
  st.prefetchMemory = (cacheBytes st.prefetchBlocks : Int)

instance (st : CacheState) : Decidable (memInv st) :=
  inferInstanceAs (Decidable (_ = _))

/-- Observable completion events of the block-store operations. -/
inductive Ev where
  | onComplete (cb : Nat) (blk : Option StoredBlock) (errno : Nat)
  | putComplete (errno : Nat)
  | emitBlockIndex (blockHash : Nat)
  | backendWrite (key : String)
  deriving DecidableEq, Repr

/-- Delivery of an independently owned copy of a block to one waiter
(the loop body shared by `fetchBlock` and `prefetchBlock`): on a fetch
error complete with its errno; otherwise re-encode (`cloneEnc` is the
`WriteStoredBlockToBuffer` outcome) and re-decode, completing with the
first nonzero errno or with the copy. -/
def serveCopy (c : Nat) (getErr : Option GoErr)
    (cloneEnc : Blob × Nat) : Ev :=
  match getErr with
  | some e => Ev.onComplete c none (errorToErrno (some e) EIO)
  | none =>
    match cloneEnc with
    | (buf, errno) =>
      if errno ≠ 0 then Ev.onComplete c none errno
      else
        match readStoredBlockFromBuffer buf with
        | (copy, errno2) =>
          if errno2 ≠ 0 then Ev.onComplete c none errno2
          else Ev.onComplete c copy 0

/-- Result of the first locked section of `fetchBlock`. -/
inductive FetchEnter where
  | claimed (b : StoredBlock)
  | queued
  | installed
  deriving DecidableEq, Repr

/-- First locked section of `fetchBlock` (remotestore.go): a completed
slot is claimed — the entry is set to `nil` and `prefetchMemory` drops by
the block size; an in-flight slot queues the callback; otherwise a fresh
in-flight slot is installed and the caller proceeds to the backend
read. -/
def fetchBlockEnter (st : CacheState) (h cb : Nat) : CacheState × FetchEnter :=
  match mapGet st.prefetchBlocks h with
  | some (some slot) =>
    match slot.storedBlock with
    | some b =>
      (⟨mapSet st.prefetchBlocks h none,
        st.prefetchMemory + (-(b.blockSize : Int))⟩, FetchEnter.claimed b)
    | none =>
      (⟨mapSet st.prefetchBlocks h
          (some ⟨slot.storedBlock, slot.completeCallbacks ++ [cb]⟩),
        st.prefetchMemory⟩, FetchEnter.queued)
  | _ =>
    (⟨mapSet st.prefetchBlocks h (some ⟨none, []⟩), st.prefetchMemory⟩,
      FetchEnter.installed)

/-- Second locked section of `fetchBlock` plus delivery: a tombstoned
entry means the block was claimed meanwhile — dispose silently; otherwise
take the waiter list, tombstone the entry, serve every waiter a copy and
finally serve the original caller the block itself.  A missing entry
makes the Go code dereference a nil pointer — modelled as `none`. -/
def fetchBlockFinish (st : CacheState) (h cb : Nat)
    (storedBlock : Option StoredBlock) (getErr : Option GoErr)
    (cloneEnc : Blob × Nat) : Option (CacheState × List Ev) :=
  match mapGet st.prefetchBlocks h with
  | some none => some (st, [])
  | some (some slot) =>
    some (⟨mapSet st.prefetchBlocks h none, st.prefetchMemory⟩,
      (slot.completeCallbacks.map (fun c => serveCopy c getErr cloneEnc)) ++
        [Ev.onComplete cb storedBlock (errorToErrno getErr EIO)])
  | none => none

/-- First locked section of `prefetchBlock`: any existing entry (live or
tombstone) makes it return immediately; otherwise an empty in-flight slot
is installed (`true` = installed, proceed to the backend read). -/
def prefetchBlockEnter (st : CacheState) (h : Nat) : CacheState × Bool :=
  match mapGet st.prefetchBlocks h with
  | some _ => (st, false)
  | none =>
    (⟨mapSet st.prefetchBlocks h (some ⟨none, []⟩), st.prefetchMemory⟩, true)

/-- The waker loop of `prefetchBlock` (remotestore.go lines 403–421):
`for i := 1; i < len(completeCallbacks)-1; i++` serves a copy to the
waiters at positions 1 .. len-2, and `completeCallbacks[0]` is finally
served the block itself. -/
def prefetchDeliver (completeCallbacks : List Nat) (getErr : Option GoErr)
    (storedBlock : Option StoredBlock) (cloneEnc : Blob × Nat) : List Ev :=
  ((List.range' 1 (completeCallbacks.length - 1 - 1)).map
    (fun i => serveCopy (completeCallbacks.getD i 0) getErr cloneEnc)) ++
  [Ev.onComplete (completeCallbacks.getD 0 0) storedBlock
    (errorToErrno getErr EIO)]

/-- Second locked section of `prefetchBlock`: a `nil` or missing entry
disposes the freshly read block; with no waiters the block is stored in
the slot and `prefetchMemory` grows by its size; with waiters the entry
is tombstoned and the waker loop (`prefetchDeliver`) runs. -/
def prefetchBlockFinish (st : CacheState) (h : Nat)
    (storedBlock : Option StoredBlock) (getErr : Option GoErr)
    (cloneEnc : Blob × Nat) : CacheState × List Ev :=
  match mapGet st.prefetchBlocks h with
  | some (some slot) =>
    if slot.completeCallbacks = [] then
      (⟨mapSet st.prefetchBlocks h (some ⟨storedBlock, slot.completeCallbacks⟩),
        st.prefetchMemory + (blockSizeOf storedBlock : Int)⟩, [])
    else
      (⟨mapSet st.prefetchBlocks h none, st.prefetchMemory⟩,
        prefetchDeliver slot.completeCallbacks getErr storedBlock cloneEnc)
  | _ => (st, [])

/-- `prefetchBlock` (remotestore.go), composed of its two locked sections
around the backend read: install an in-flight slot (or return if any
entry exists), run `getStoredBlock`, return on its error *before touching
the cache*, and otherwise finish under the lock. -/
def prefetchBlock (stats : Stats) (st : CacheState) (h : Nat)
    (env : ReadBlobEnv) (cloneEnc : Blob × Nat) :
    Stats × CacheState × List Ev :=
  match prefetchBlockEnter st h with
  | (st1, installed) =>
    if installed = false then (stats, st1, [])
    else
      match getStoredBlock stats env h with
      | (stats2, storedBlock, getErr) =>
        match getErr with
        | some _ => (stats2, st1, [])
        | none =>
          match prefetchBlockFinish st1 h storedBlock none cloneEnc with
          | (st2, tr) => (stats2, st2, tr)

/-- The channel-drain loop of `flushPrefetch`: discard every queued
prefetch request. -/
def drainPrefetchChan : List Nat → List Nat
  | [] => []
  | _ :: rest => drainPrefetchChan rest

/-- An entry `flushPrefetch` leaves intact: a live slot somebody is still
waiting for. -/
def keepSlot (p : Nat × Option Slot) : Bool :=
  match p.2 with
  | some s => !s.completeCallbacks.isEmpty
  | none => false

/-- The collection loop of `flushPrefetch`: walk the map, log every slot
with waiters, and gather the keys of every other entry. -/
def flushCollect : CacheMap → List Nat × List Nat
  | [] => ([], [])
  | p :: rest =>
    match flushCollect rest with
    | (fb, lg) =>
      if keepSlot p then (fb, p.1 :: lg) else (p.1 :: fb, lg)

/-- The disposal loop of `flushPrefetch`: for each collected key, dispose
a held block (decrementing `prefetchMemory` by its size) and delete the
entry. -/
def flushDispose : List Nat → CacheState → CacheState
  | [], st => st
  | k :: ks, st =>
    let st2 : CacheState :=
      match mapGet st.prefetchBlocks k with
      | some (some s) =>
        match s.storedBlock with
        | some b =>
          ⟨mapDel st.prefetchBlocks k,
            st.prefetchMemory + (-(b.blockSize : Int))⟩
        | none => ⟨mapDel st.prefetchBlocks k, st.prefetchMemory⟩
      | _ => ⟨mapDel st.prefetchBlocks k, st.prefetchMemory⟩
    flushDispose ks st2

/-- `flushPrefetch` (remotestore.go): drain the prefetch channel, then
under the lock collect and remove every tombstone and waiter-free slot
(disposing held blocks), leaving (and logging) every slot with waiters.
Returns the drained channel, the new state, and the logged keys. -/
def flushPrefetch (chan : List Nat) (st : CacheState) :
    List Nat × CacheState × List Nat :=
  let chan2 := drainPrefetchChan chan
  match flushCollect st.prefetchBlocks with
  | (flushBlocks, logged) => (chan2, flushDispose flushBlocks st, logged)

theorem cacheBytes_cons (p : Nat × Option Slot) (m : CacheMap) :
    cacheBytes (p :: m) = slotBytes p.2 + cacheBytes m := by
  simp [cacheBytes]

theorem cacheBytes_mapSet_present {m : CacheMap} {k : Nat} {v : Option Slot}
    (hget : mapGet m k = some v) (w : Option Slot) :
    cacheBytes (mapSet m k w) + slotBytes v = cacheBytes m + slotBytes w := by
  induction m with
  | nil => simp [mapGet] at hget
  | cons p rest ih =>
    by_cases hk : p.1 = k
    · simp only [mapGet, if_pos hk] at hget
      injection hget with hv
      subst hv
      simp only [mapSet, if_pos hk]
      rw [cacheBytes_cons, cacheBytes_cons]
      have hw : slotBytes ((k, w) : Nat × Option Slot).2 = slotBytes w := rfl
      rw [hw]
      omega
    · simp only [mapGet, if_neg hk] at hget
      simp only [mapSet, if_neg hk]
      rw [cacheBytes_cons, cacheBytes_cons]
      have := ih hget
      omega

theorem cacheBytes_mapSet_absent {m : CacheMap} {k : Nat}
    (hget : mapGet m k = none) (w : Option Slot) :
    cacheBytes (mapSet m k w) = cacheBytes m + slotBytes w := by
  induction m with
  | nil => simp [mapSet, cacheBytes]
  | cons p rest ih =>
    by_cases hk : p.1 = k
    · simp only [mapGet, if_pos hk] at hget
      exact Option.noConfusion hget
    · simp only [mapGet, if_neg hk] at hget
      simp only [mapSet, if_neg hk]
      rw [cacheBytes_cons, cacheBytes_cons, ih hget]
      omega

theorem mapGet_cons_ne {p : Nat × Option Slot} {m : CacheMap} {k : Nat}
    (h : p.1 ≠ k) : mapGet (p :: m) k = mapGet m k := by
  simp [mapGet, h]

theorem mapDel_cons_ne {p : Nat × Option Slot} {m : CacheMap} {k : Nat}
    (h : p.1 ≠ k) : mapDel (p :: m) k = p :: mapDel m k := by
  simp [mapDel, h]

theorem mapDel_not_mem {m : CacheMap} {k : Nat}
    (h : k ∉ m.map Prod.fst) : mapDel m k = m := by
  induction m with
  | nil => rfl
  | cons p rest ih =>
    simp only [List.map_cons, List.mem_cons] at h
    push_neg at h
    have hne : ¬ p.1 = k := fun hh => h.1 hh.symm
    simp only [mapDel, if_neg hne, ih h.2]

theorem drainPrefetchChan_eq (l : List Nat) : drainPrefetchChan l = [] := by
  induction l with
  | nil => rfl
  | cons x xs ih => simpa [drainPrefetchChan] using ih

theorem flushCollect_eq (m : CacheMap) :
    flushCollect m = ((m.filter (fun p => !keepSlot p)).map Prod.fst,
      (m.filter keepSlot).map Prod.fst) := by
  induction m with
  | nil => rfl
  | cons p rest ih =>
    simp only [flushCollect, ih]
    by_cases hk : keepSlot p <;> simp [List.filter_cons, hk]

/-- Disposal skips entries whose key is not in the flush list. -/
theorem flushDispose_skip {ks : List Nat} {p : Nat × Option Slot}
    {m : CacheMap} {mem : Int} (h : p.1 ∉ ks) :
    flushDispose ks ⟨p :: m, mem⟩ =
      ⟨p :: (flushDispose ks ⟨m, mem⟩).prefetchBlocks,
        (flushDispose ks ⟨m, mem⟩).prefetchMemory⟩ := by
  induction ks generalizing m mem with
  | nil => rfl
  | cons k ks ih =>
    have hne : p.1 ≠ k := fun hh => h (hh ▸ List.mem_cons_self k ks)
    have hnotin : p.1 ∉ ks := fun hh => h (List.mem_cons_of_mem k hh)
    cases hget : mapGet m k with
    | none =>
      simp only [flushDispose, mapGet_cons_ne hne, mapDel_cons_ne hne, hget]
      exact ih hnotin
    | some v =>
      cases v with
      | none =>
        simp only [flushDispose, mapGet_cons_ne hne, mapDel_cons_ne hne, hget]
        exact ih hnotin
      | some s =>
        cases hsb : s.storedBlock with
        | none =>
          simp only [flushDispose, mapGet_cons_ne hne, mapDel_cons_ne hne,
            hget, hsb]
          exact ih hnotin
        | some b =>
          simp only [flushDispose, mapGet_cons_ne hne, mapDel_cons_ne hne,
            hget, hsb]
          exact ih hnotin

/-- The disposal loop over the collected keys removes exactly the
collected entries and refunds exactly the bytes they held. -/
theorem flushDispose_spec {m : CacheMap} (hnd : keysNodup m) (mem : Int) :
    flushDispose ((m.filter (fun p => !keepSlot p)).map Prod.fst) ⟨m, mem⟩ =
      ⟨m.filter keepSlot,
        mem - (cacheBytes (m.filter (fun p => !keepSlot p)) : Int)⟩ := by
  induction m generalizing mem with
  | nil => simp [flushDispose, cacheBytes]
  | cons p rest ih =>
    obtain ⟨k0, v0⟩ := p
    have hnd2 : keysNodup rest := by
      simp only [keysNodup, List.map_cons, List.nodup_cons] at hnd
      exact hnd.2
    have hpnotin : k0 ∉ rest.map Prod.fst := by
      simp only [keysNodup, List.map_cons, List.nodup_cons] at hnd
      exact hnd.1
    by_cases hk : keepSlot (k0, v0) = true
    · have hfilter : ((k0, v0) :: rest).filter (fun q => !keepSlot q) =
          rest.filter (fun q => !keepSlot q) := by
        simp [List.filter_cons, hk]
      have hfilter2 : ((k0, v0) :: rest).filter keepSlot =
          (k0, v0) :: rest.filter keepSlot := by
        simp [List.filter_cons, hk]
      rw [hfilter, hfilter2]
      have hnotin : k0 ∉ (rest.filter (fun q => !keepSlot q)).map Prod.fst := by
        intro hmem
        apply hpnotin
        obtain ⟨q, hq1, hq2⟩ := List.mem_map.mp hmem
        exact hq2 ▸ List.mem_map_of_mem _ (List.mem_of_mem_filter hq1)
      rw [flushDispose_skip hnotin, ih hnd2 mem]
    · have hkf : keepSlot (k0, v0) = false := by simpa using hk
      have hfilter : ((k0, v0) :: rest).filter (fun q => !keepSlot q) =
          (k0, v0) :: rest.filter (fun q => !keepSlot q) := by
        simp [List.filter_cons, hkf]
      have hfilter2 : ((k0, v0) :: rest).filter keepSlot =
          rest.filter keepSlot := by
        simp [List.filter_cons, hkf]
      rw [hfilter, hfilter2, List.map_cons]
      have hget : mapGet ((k0, v0) :: rest) k0 = some v0 := by
        simp [mapGet]
      have hdel : mapDel ((k0, v0) :: rest) k0 = rest := by
        simp only [mapDel, if_pos rfl]
        exact mapDel_not_mem hpnotin
      cases v0 with
      | none =>
        simp only [flushDispose, hget, hdel]
        rw [ih hnd2 mem, cacheBytes_cons]
        have hsl : slotBytes ((k0, (none : Option Slot)) :
            Nat × Option Slot).2 = 0 := rfl
        rw [hsl]
        norm_num
      | some s =>
        have hsl : slotBytes ((k0, some s) : Nat × Option Slot).2 =
            slotBytes (some s) := rfl
        cases hsb : s.storedBlock with
        | none =>
          simp only [flushDispose, hget, hdel, hsb]
          rw [ih hnd2 mem, cacheBytes_cons, hsl]
          simp only [slotBytes, hsb]
          norm_num
        | some b =>
          simp only [flushDispose, hget, hdel, hsb]
          rw [ih hnd2 (mem + (-(b.blockSize : Int))), cacheBytes_cons, hsl]
          congr 1
          simp only [slotBytes, hsb]
          push_cast
          ring

/-- C9.  `flushPrefetch` drains every queued prefetch message, removes
from the map exactly the tombstones and the waiter-free slots —
decrementing `prefetchMemory` by the bytes those slots held — and leaves
every slot with a non-empty waiter list unchanged, logging one message
per such slot. -/
theorem flushPrefetch_correct (chan : List Nat) (st : CacheState)
    (hnd : keysNodup st.prefetchBlocks) :
    flushPrefetch chan st =
      ([], ⟨st.prefetchBlocks.filter keepSlot,
        st.prefetchMemory -
          (cacheBytes (st.prefetchBlocks.filter (fun p => !keepSlot p)) : Int)⟩,
        (st.prefetchBlocks.filter keepSlot).map Prod.fst) := by
  obtain ⟨m, mem⟩ := st
  simp only [flushPrefetch, drainPrefetchChan_eq, flushCollect_eq]
  rw [flushDispose_spec hnd mem]

/-- C9 witness: a three-entry cache — a completed slot of 10 bytes, a
waited-on in-flight slot, and a tombstone; flushing drains the channel,
removes the completed slot and the tombstone, refunds the 10 bytes, and
logs the waited-on slot. -/
theorem flushPrefetch_correct_witness :
    flushPrefetch [7, 8]
      ⟨[(1, some ⟨some ⟨1, 10, 1⟩, []⟩), (2, some ⟨none, [5]⟩), (3, none)],
        10⟩ =
      ([], ⟨[(2, some ⟨none, [5]⟩)], 0⟩, [2]) :=
  (flushPrefetch_correct [7, 8] _ (by decide)).trans (by decide)

theorem slotBytes_mk (sb : Option StoredBlock) (cbs : List Nat) :
    slotBytes (some ⟨sb, cbs⟩) = blockSizeOf sb := by
  cases sb <;> rfl

theorem cacheBytes_filter_split (m : CacheMap) :
    cacheBytes (m.filter keepSlot) +
      cacheBytes (m.filter (fun p => !keepSlot p)) = cacheBytes m := by
  induction m with
  | nil => rfl
  | cons p rest ih =>
    by_cases hk : keepSlot p = true
    · have h1 : (p :: rest).filter keepSlot = p :: rest.filter keepSlot := by
        simp [List.filter_cons, hk]
      have h2 : (p :: rest).filter (fun q => !keepSlot q) =
          rest.filter (fun q => !keepSlot q) := by
        simp [List.filter_cons, hk]
      rw [h1, h2, cacheBytes_cons, cacheBytes_cons]
      omega
    · have hkf : keepSlot p = false := by simpa using hk
      have h1 : (p :: rest).filter keepSlot = rest.filter keepSlot := by
        simp [List.filter_cons, hkf]
      have h2 : (p :: rest).filter (fun q => !keepSlot q) =
          p :: rest.filter (fun q => !keepSlot q) := by
        simp [List.filter_cons, hkf]
      rw [h1, h2, cacheBytes_cons, cacheBytes_cons]
      omega

/-- C8.  `prefetchMemory` equals the bytes held in
completed-but-unclaimed cache slots at every quiescent point: the
invariant holds initially, is preserved by both locked sections of
`fetchBlock` and of `prefetchBlock` (the completing fetcher's own slot is
still in flight, i.e. holds no block) and by `flushPrefetch`; moreover a
fetch claiming a completed slot subtracts exactly the claimed block's
size, and a prefetch completing with no waiters adds exactly the fetched
block's size. -/
theorem prefetchMemory_invariant :
    memInv ⟨[], 0⟩ ∧
    (∀ st h cb, memInv st → memInv (fetchBlockEnter st h cb).1) ∧
    (∀ st h cb sb ge enc st2 tr,
      (∀ slot, mapGet st.prefetchBlocks h = some (some slot) →
        slot.storedBlock = none) →
      memInv st → fetchBlockFinish st h cb sb ge enc = some (st2, tr) →
      memInv st2) ∧
    (∀ st h, memInv st → memInv (prefetchBlockEnter st h).1) ∧
    (∀ st h sb ge enc,
      (∀ slot, mapGet st.prefetchBlocks h = some (some slot) →
        slot.storedBlock = none) →
      memInv st → memInv (prefetchBlockFinish st h sb ge enc).1) ∧
    (∀ chan st, keysNodup st.prefetchBlocks → memInv st →
      memInv (flushPrefetch chan st).2.1) ∧
    (∀ st h cb slot b, mapGet st.prefetchBlocks h = some (some slot) →
      slot.storedBlock = some b →
      (fetchBlockEnter st h cb).1.prefetchMemory =
        st.prefetchMemory - (b.blockSize : Int)) ∧
    (∀ st h sb ge enc slot, mapGet st.prefetchBlocks h = some (some slot) →
      slot.completeCallbacks = [] →
      (prefetchBlockFinish st h sb ge enc).1.prefetchMemory =
        st.prefetchMemory + (blockSizeOf sb : Int)) := by
  refine ⟨by simp [memInv, cacheBytes], ?_, ?_, ?_, ?_, ?_, ?_, ?_⟩
  · -- fetchBlockEnter preserves the invariant
    intro st h cb hinv
    obtain ⟨m, mem⟩ := st
    simp only [memInv] at hinv
    cases hget : mapGet m h with
    | none =>
      simp only [fetchBlockEnter, hget, memInv]
      rw [cacheBytes_mapSet_absent hget, slotBytes_mk]
      simp only [blockSizeOf]
      omega
    | some v =>
      cases v with
      | none =>
        simp only [fetchBlockEnter, hget, memInv]
        have hpres := cacheBytes_mapSet_present hget (some ⟨none, []⟩)
        rw [slotBytes_mk] at hpres
        simp only [slotBytes, blockSizeOf] at hpres
        omega
      | some slot =>
        cases hsb : slot.storedBlock with
        | some b =>
          simp only [fetchBlockEnter, hget, hsb, memInv]
          have hpres := cacheBytes_mapSet_present hget (none : Option Slot)
          have hslv : slotBytes (some slot) = b.blockSize := by
            simp [slotBytes, hsb]
          rw [hslv] at hpres
          simp only [slotBytes] at hpres
          omega
        | none =>
          simp only [fetchBlockEnter, hget, hsb, memInv]
          have hpres := cacheBytes_mapSet_present hget
            (some ⟨none, slot.completeCallbacks ++ [cb]⟩)
          have hslv : slotBytes (some slot) = 0 := by simp [slotBytes, hsb]
          rw [hslv, slotBytes_mk] at hpres
          simp only [blockSizeOf] at hpres
          omega
  · -- fetchBlockFinish preserves the invariant
    intro st h cb sb ge enc st2 tr hslot hinv hfin
    obtain ⟨m, mem⟩ := st
    simp only [memInv] at hinv
    cases hget : mapGet m h with
    | none =>
      simp only [fetchBlockFinish, hget] at hfin
      exact Option.noConfusion hfin
    | some v =>
      cases v with
      | none =>
        simp only [fetchBlockFinish, hget, Option.some.injEq,
          Prod.mk.injEq] at hfin
        obtain ⟨h1, _⟩ := hfin
        rw [← h1]
        exact hinv
      | some slot =>
        have hsb := hslot slot hget
        simp only [fetchBlockFinish, hget, Option.some.injEq,
          Prod.mk.injEq] at hfin
        obtain ⟨h1, _⟩ := hfin
        rw [← h1]
        simp only [memInv]
        have hpres := cacheBytes_mapSet_present hget (none : Option Slot)
        have hslv : slotBytes (some slot) = 0 := by simp [slotBytes, hsb]
        rw [hslv] at hpres
        simp only [slotBytes] at hpres
        omega
  · -- prefetchBlockEnter preserves the invariant
    intro st h hinv
    obtain ⟨m, mem⟩ := st
    simp only [memInv] at hinv
    cases hget : mapGet m h with
    | none =>
      simp only [prefetchBlockEnter, hget, memInv]
      rw [cacheBytes_mapSet_absent hget, slotBytes_mk]
      simp only [blockSizeOf]
      omega
    | some v =>
      simp only [prefetchBlockEnter, hget, memInv]
      exact hinv
  · -- prefetchBlockFinish preserves the invariant
    intro st h sb ge enc hslot hinv
    obtain ⟨m, mem⟩ := st
    simp only [memInv] at hinv
    cases hget : mapGet m h with
    | none =>
      simp only [prefetchBlockFinish, hget, memInv]
      exact hinv
    | some v =>
      cases v with
      | none =>
        simp only [prefetchBlockFinish, hget, memInv]
        exact hinv
      | some slot =>
        have hsb := hslot slot hget
        by_cases hcb : slot.completeCallbacks = []
        · simp only [prefetchBlockFinish, hget, if_pos hcb, memInv]
          have hpres := cacheBytes_mapSet_present hget
            (some ⟨sb, slot.completeCallbacks⟩)
          have hslv : slotBytes (some slot) = 0 := by simp [slotBytes, hsb]
          rw [hslv, slotBytes_mk] at hpres
          omega
        · simp only [prefetchBlockFinish, hget, if_neg hcb, memInv]
          have hpres := cacheBytes_mapSet_present hget (none : Option Slot)
          have hslv : slotBytes (some slot) = 0 := by simp [slotBytes, hsb]
          rw [hslv] at hpres
          simp only [slotBytes] at hpres
          omega
  · -- flushPrefetch preserves the invariant
    intro chan st hnd hinv
    obtain ⟨m, mem⟩ := st
    simp only [memInv] at hinv
    simp only [flushPrefetch, drainPrefetchChan_eq, flushCollect_eq]
    rw [flushDispose_spec hnd mem]
    simp only [memInv]
    have hsplit := cacheBytes_filter_split m
    omega
  · -- a claimed slot subtracts exactly the claimed block's size
    intro st h cb slot b hget hsb
    obtain ⟨m, mem⟩ := st
    simp only [fetchBlockEnter, hget, hsb]
    ring
  · -- a prefetch completing with no waiters adds exactly the block size
    intro st h sb ge enc slot hget hcb
    obtain ⟨m, mem⟩ := st
    simp only [prefetchBlockFinish, hget, if_pos hcb]

/-- C8 witness: claiming the single completed 100-byte slot of a
one-entry cache preserves the memory invariant. -/
theorem prefetchMemory_invariant_witness :
    memInv ⟨[(5, some ⟨some ⟨5, 100, 1⟩, []⟩)], 100⟩ ∧
    memInv (fetchBlockEnter ⟨[(5, some ⟨some ⟨5, 100, 1⟩, []⟩)], 100⟩ 5 7).1 :=
  ⟨by decide,
    prefetchMemory_invariant.2.1 ⟨[(5, some ⟨some ⟨5, 100, 1⟩, []⟩)], 100⟩ 5 7
      (by decide)⟩

/-- C2.  When `prefetchBlock`'s backend read succeeded and its slot holds
`K ≥ 1` queued waiters, the waker loop serves copies to the waiters at
positions `1 ≤ i < K-1` in order and then serves position 0 last (the
loop itself skips position 0); a single waiter is served exactly once;
for `K ≥ 2` exactly `K-1` completions are invoked, and position `K-1` —
a waiter — is never served. -/
theorem prefetchBlock_waker_loop (st : CacheState) (h : Nat)
    (sb : Option StoredBlock) (enc : Blob × Nat) (slot : Slot)
    (hget : mapGet st.prefetchBlocks h = some (some slot))
    (hne : slot.completeCallbacks ≠ []) :
    ((prefetchBlockFinish st h sb none enc).2 =
      (List.range' 1 (slot.completeCallbacks.length - 1 - 1)).map
        (fun i => serveCopy (slot.completeCallbacks.getD i 0) none enc) ++
      [Ev.onComplete (slot.completeCallbacks.getD 0 0) sb 0]) ∧
    (slot.completeCallbacks.length = 1 →
      (prefetchBlockFinish st h sb none enc).2 =
        [Ev.onComplete (slot.completeCallbacks.getD 0 0) sb 0]) ∧
    (2 ≤ slot.completeCallbacks.length →
      (prefetchBlockFinish st h sb none enc).2.length =
        slot.completeCallbacks.length - 1) ∧
    (2 ≤ slot.completeCallbacks.length →
      slot.completeCallbacks.length - 1 ∉
        (List.range' 1 (slot.completeCallbacks.length - 1 - 1) ++ [0])) := by
  have htr : (prefetchBlockFinish st h sb none enc).2 =
      (List.range' 1 (slot.completeCallbacks.length - 1 - 1)).map
        (fun i => serveCopy (slot.completeCallbacks.getD i 0) none enc) ++
      [Ev.onComplete (slot.completeCallbacks.getD 0 0) sb 0] := by
    simp [prefetchBlockFinish, hget, if_neg hne, prefetchDeliver, errorToErrno]
  refine ⟨htr, ?_, ?_, ?_⟩
  · intro hlen
    rw [htr, hlen]
    simp
  · intro hlen
    rw [htr]
    simp only [List.length_append, List.length_map, List.length_range',
      List.length_singleton]
    omega
  · intro hlen
    simp only [List.mem_append, List.mem_range'_1, List.mem_singleton]
    push_neg
    omega

/-- C2 witness: three waiters `[10, 20, 30]` — the loop serves only
waiter 20 a copy, then waiter 10 receives the block; waiter 30 is never
completed (2 = 3−1 completions in total). -/
theorem prefetchBlock_waker_loop_witness :
    (prefetchBlockFinish
      ⟨[(4, some ⟨none, [10, 20, 30]⟩)], 0⟩ 4 (some ⟨4, 9, 1⟩) none
      (Blob.stored ⟨4, 9, 1⟩, 0)).2 =
      [Ev.onComplete 20 (some ⟨4, 9, 1⟩) 0,
        Ev.onComplete 10 (some ⟨4, 9, 1⟩) 0] :=
  ((prefetchBlock_waker_loop ⟨[(4, some ⟨none, [10, 20, 30]⟩)], 0⟩ 4
      (some ⟨4, 9, 1⟩) (Blob.stored ⟨4, 9, 1⟩, 0) ⟨none, [10, 20, 30]⟩
      (by decide) (by decide)).1).trans (by decide)

/-- C6.  When the fetched bytes decode to a block whose own hash differs
from the requested one, `getStoredBlock` returns the `EBADF` bad-file
error and increments `GetStoredBlock_FailCount` by exactly one (the full
statistics delta is stated); and whenever `getStoredBlock` returns any
error, `prefetchBlock` returns before caching — the installed slot still
holds no block, `prefetchMemory` is unchanged, and nothing is
delivered. -/
theorem getStoredBlock_hash_mismatch :
    (∀ stats env h sb, env.newObjErr = none → env.existsErr = none →
      env.existsVal = true → env.read0Err = none →
      env.read0Data = some (Blob.stored sb) → sb.blockHash ≠ h →
      getStoredBlock stats env h =
        ({ stats with
            getCount := stats.getCount + 1
            getByteCount := stats.getByteCount + sb.blockSize
            getFailCount := stats.getFailCount + 1 }, none,
          some (GoErr.errnoErr EBADF))) ∧
    (∀ stats st h env enc stats2 sb getErr,
      mapGet st.prefetchBlocks h = none →
      getStoredBlock stats env h = (stats2, sb, getErr) → getErr ≠ none →
      prefetchBlock stats st h env enc =
        (stats2, ⟨mapSet st.prefetchBlocks h (some ⟨none, []⟩),
          st.prefetchMemory⟩, [])) := by
  constructor
  · intro stats env h sb hobj hee hev h0 hd hne
    simp [getStoredBlock, readBlobWithRetry, hobj, hee, hev, h0, hd,
      readStoredBlockFromBuffer, blobLen, errnoToError, EBADF, hne]
  · intro stats st h env enc stats2 sb getErr hget hgsb hne
    cases getErr with
    | none => exact absurd rfl hne
    | some e =>
      simp [prefetchBlock, prefetchBlockEnter, hget, hgsb]

/-- C6 witness: requesting hash 6 while the backend bytes decode to a
block with hash 5 — `EBADF`, fail count up by one; a prefetch of the
same corrupt block leaves the cache slot empty. -/
theorem getStoredBlock_hash_mismatch_witness :
    getStoredBlock {} { read0Data := some (Blob.stored ⟨5, 100, 2⟩) } 6 =
      ({ getCount := 1, getByteCount := 100, getFailCount := 1 }, none,
        some (GoErr.errnoErr EBADF)) ∧
    prefetchBlock {} ⟨[], 0⟩ 6 { read0Data := some (Blob.stored ⟨5, 100, 2⟩) }
        (Blob.junk 0, 0) =
      ({ getCount := 1, getByteCount := 100, getFailCount := 1 },
        ⟨[(6, some ⟨none, []⟩)], 0⟩, []) := by
  constructor
  · exact getStoredBlock_hash_mismatch.1 {}
      { read0Data := some (Blob.stored ⟨5, 100, 2⟩) } 6 ⟨5, 100, 2⟩
      rfl rfl rfl rfl rfl (by decide)
  · exact getStoredBlock_hash_mismatch.2 {} ⟨[], 0⟩ 6
      { read0Data := some (Blob.stored ⟨5, 100, 2⟩) } (Blob.junk 0, 0)
      { getCount := 1, getByteCount := 100, getFailCount := 1 } none
      (some (GoErr.errnoErr EBADF)) rfl (by decide) (by decide)

/-! ## `putStoredBlock` and the worker put branches -/

/-- Environment of one `putStoredBlock` call: the backend outcomes of
`NewObject`, `Exists`, the encode (`WriteStoredBlockToBuffer`: a buffer
and an errno), the four `Write` attempts (`(ok, err)` pairs) and the
`BlockIndex.Copy`. -/
structure PutEnv where
  newObjErr : Option GoErr := none
  existsVal : Bool := false
  existsErr : Option GoErr := none
  encodeBlob : Blob := Blob.junk 0
  encodeErrno : Nat := 0
  write0Ok : Bool := true
  write0Err : Option GoErr := none
  write1Ok : Bool := true
  write1Err : Option GoErr := none
  write2Ok : Bool := true
  write2Err : Option GoErr := none
  write3Ok : Bool := true
  write3Err : Option GoErr := none
  copyErr : Option GoErr := none

/-- A failed `Write` attempt: `err != nil || !ok`. -/
def writeFailed (ok : Bool) (err : Option GoErr) : Bool :=
  err.isSome || !ok

/-- The code after `putStoredBlock`'s write block: copy the block index,
send the copy on the maintainer channel (the `emitBlockIndex` event) and
return `nil`. -/
def putEmitTail (stats : Stats) (evs : List Ev) (env : PutEnv)
    (sb : StoredBlock) : Stats × List Ev × Option GoErr :=
  match env.copyErr with
  | some e => (stats, evs, some e)
  | none => (stats, evs ++ [Ev.emitBlockIndex sb.blockHash], none)

/-- `putStoredBlock` (remotestore.go): count the call; only when the
object at `GetBlockPath "chunks" hash` does not already exist
(`err == nil && !exists`) encode the block and write it with the
three-step retry ladder, counting retries; when the ladder is exhausted
the fail counter is incremented but the returned error is computed from
the *encode* status `errno` — which is 0 at that point — i.e. `nil`; a
successful write grows the byte and chunk counters.  Every path that
falls out of the write block sends a copy of the block index to the
maintainer and returns `nil`. -/
def putStoredBlock (stats : Stats) (env : PutEnv) (sb : StoredBlock) :
    Stats × List Ev × Option GoErr :=
  let stats1 := { stats with putCount := stats.putCount + 1 }
  let key := GetBlockPath "chunks" sb.blockHash
  match env.newObjErr with
  | some e => (stats1, [], some e)
  | none =>
    if env.existsErr = none ∧ env.existsVal = false then
      if env.encodeErrno ≠ 0 then
        (stats1, [], errnoToError env.encodeErrno GoErr.eio)
      else
        if writeFailed env.write0Ok env.write0Err = false then
          putEmitTail
            { stats1 with
                putByteCount := stats1.putByteCount + blobLen env.encodeBlob
                putChunkCount := stats1.putChunkCount + sb.chunkCount }
            [Ev.backendWrite key] env sb
        else
          let stats2 :=
            { stats1 with putRetryCount := stats1.putRetryCount + 1 }
          if writeFailed env.write1Ok env.write1Err = false then
            putEmitTail
              { stats2 with
                  putByteCount := stats2.putByteCount + blobLen env.encodeBlob
                  putChunkCount := stats2.putChunkCount + sb.chunkCount }
              [Ev.backendWrite key, Ev.backendWrite key] env sb
          else
            let stats3 :=
              { stats2 with putRetryCount := stats2.putRetryCount + 1 }
            if writeFailed env.write2Ok env.write2Err = false then
              putEmitTail
                { stats3 with
                    putByteCount := stats3.putByteCount + blobLen env.encodeBlob
                    putChunkCount := stats3.putChunkCount + sb.chunkCount }
                [Ev.backendWrite key, Ev.backendWrite key, Ev.backendWrite key]
                env sb
            else
              let stats4 :=
                { stats3 with putRetryCount := stats3.putRetryCount + 1 }
              if writeFailed env.write3Ok env.write3Err = false then
                putEmitTail
                  { stats4 with
                      putByteCount :=
                        stats4.putByteCount + blobLen env.encodeBlob
                      putChunkCount :=
                        stats4.putChunkCount + sb.chunkCount }
                  [Ev.backendWrite key, Ev.backendWrite key,
                    Ev.backendWrite key, Ev.backendWrite key] env sb
              else
                ({ stats4 with putFailCount := stats4.putFailCount + 1 },
                  [Ev.backendWrite key, Ev.backendWrite key,
                    Ev.backendWrite key, Ev.backendWrite key],
                  errnoToError 0 GoErr.eio)
    else
      putEmitTail stats1 [] env sb

/-- The put branch of the worker's non-blocking poll (remotestore.go
line 479): a ReadOnly store completes the put with `EACCES` and neither
writes nor emits; otherwise `putStoredBlock` runs and its error is
translated to the completion errno. -/
def remoteWorkerPutNonblocking (accessType : AccessType) (stats : Stats)
    (env : PutEnv) (sb : StoredBlock) : Stats × List Ev :=
  if accessType = AccessType.readOnly then
    (stats, [Ev.putComplete EACCES])
  else
    match putStoredBlock stats env sb with
    | (stats2, tr, err) =>
      (stats2, tr ++ [Ev.putComplete (errorToErrno err EIO)])

/-- The put branch of the worker's blocking select while prefetch is
admitted (remotestore.go line 502); textually identical handling. -/
def remoteWorkerPutBlocking (accessType : AccessType) (stats : Stats)
    (env : PutEnv) (sb : StoredBlock) : Stats × List Ev :=
  if accessType = AccessType.readOnly then
    (stats, [Ev.putComplete EACCES])
  else
    match putStoredBlock stats env sb with
    | (stats2, tr, err) =>
      (stats2, tr ++ [Ev.putComplete (errorToErrno err EIO)])

/-- The put branch of the worker's blocking select under memory pressure
(remotestore.go line 523); textually identical handling. -/
def remoteWorkerPutThrottled (accessType : AccessType) (stats : Stats)
    (env : PutEnv) (sb : StoredBlock) : Stats × List Ev :=
  if accessType = AccessType.readOnly then
    (stats, [Ev.putComplete EACCES])
  else
    match putStoredBlock stats env sb with
    | (stats2, tr, err) =>
      (stats2, tr ++ [Ev.putComplete (errorToErrno err EIO)])

/-- C4.  On every branch of the worker loop that receives a put message,
a ReadOnly store completes the put with `EACCES`, performs no backend
write, emits no block index, and leaves the statistics untouched. -/
theorem readOnly_put_denied (stats : Stats) (env : PutEnv)
    (sb : StoredBlock) :
    remoteWorkerPutNonblocking AccessType.readOnly stats env sb =
      (stats, [Ev.putComplete EACCES]) ∧
    remoteWorkerPutBlocking AccessType.readOnly stats env sb =
      (stats, [Ev.putComplete EACCES]) ∧
    remoteWorkerPutThrottled AccessType.readOnly stats env sb =
      (stats, [Ev.putComplete EACCES]) :=
  ⟨rfl, rfl, rfl⟩

/-- Is an event a backend write? -/
def isBackendWrite (ev : Ev) : Bool :=
  match ev with
  | Ev.backendWrite _ => true
  | _ => false

/-- C5.  A put on a writable store writes the encoded block only when no
object exists at its derived key: an already-present key skips the write
and still succeeds; a fresh key is written once (first attempt
succeeding); hence putting the same block twice performs exactly one
backend write with two successful completions — and in both cases a copy
of the block index is emitted to the maintainer before the put completes
(the completion event follows the emission in the worker trace). -/
theorem putStoredBlock_idempotent :
    (∀ stats env sb, env.newObjErr = none → env.existsErr = none →
      env.existsVal = true → env.copyErr = none →
      putStoredBlock stats env sb =
        ({ stats with putCount := stats.putCount + 1 },
          [Ev.emitBlockIndex sb.blockHash], none)) ∧
    (∀ stats env sb, env.newObjErr = none → env.existsErr = none →
      env.existsVal = false → env.encodeErrno = 0 →
      env.write0Ok = true → env.write0Err = none → env.copyErr = none →
      putStoredBlock stats env sb =
        ({ stats with
            putCount := stats.putCount + 1
            putByteCount := stats.putByteCount + blobLen env.encodeBlob
            putChunkCount := stats.putChunkCount + sb.chunkCount },
          [Ev.backendWrite (GetBlockPath "chunks" sb.blockHash),
            Ev.emitBlockIndex sb.blockHash], none)) ∧
    (∀ stats1 stats2 env1 env2 sb,
      env1.newObjErr = none → env1.existsErr = none →
      env1.existsVal = false → env1.encodeErrno = 0 →
      env1.write0Ok = true → env1.write0Err = none → env1.copyErr = none →
      env2.newObjErr = none → env2.existsErr = none →
      env2.existsVal = true → env2.copyErr = none →
      ((putStoredBlock stats1 env1 sb).2.1 ++
          (putStoredBlock stats2 env2 sb).2.1).countP
        (fun ev => isBackendWrite ev) = 1 ∧
      (putStoredBlock stats1 env1 sb).2.2 = none ∧
      (putStoredBlock stats2 env2 sb).2.2 = none ∧
      Ev.emitBlockIndex sb.blockHash ∈ (putStoredBlock stats1 env1 sb).2.1 ∧
      Ev.emitBlockIndex sb.blockHash ∈ (putStoredBlock stats2 env2 sb).2.1) ∧
    (∀ stats env sb accessType, accessType ≠ AccessType.readOnly →
      env.newObjErr = none → env.existsErr = none →
      env.existsVal = true → env.copyErr = none →
      remoteWorkerPutNonblocking accessType stats env sb =
        ({ stats with putCount := stats.putCount + 1 },
          [Ev.emitBlockIndex sb.blockHash, Ev.putComplete 0])) := by
  have hpresent : ∀ (stats : Stats) (env : PutEnv) (sb : StoredBlock),
      env.newObjErr = none → env.existsErr = none →
      env.existsVal = true → env.copyErr = none →
      putStoredBlock stats env sb =
        ({ stats with putCount := stats.putCount + 1 },
          [Ev.emitBlockIndex sb.blockHash], none) := by
    intro stats env sb hobj hee hev hcp
    simp [putStoredBlock, putEmitTail, hobj, hee, hev, hcp]
  have habsent : ∀ (stats : Stats) (env : PutEnv) (sb : StoredBlock),
      env.newObjErr = none → env.existsErr = none →
      env.existsVal = false → env.encodeErrno = 0 →
      env.write0Ok = true → env.write0Err = none → env.copyErr = none →
      putStoredBlock stats env sb =
        ({ stats with
            putCount := stats.putCount + 1
            putByteCount := stats.putByteCount + blobLen env.encodeBlob
            putChunkCount := stats.putChunkCount + sb.chunkCount },
          [Ev.backendWrite (GetBlockPath "chunks" sb.blockHash),
            Ev.emitBlockIndex sb.blockHash], none) := by
    intro stats env sb hobj hee hev henc hw0 hw0e hcp
    simp [putStoredBlock, putEmitTail, writeFailed, hobj, hee, hev, henc,
      hw0, hw0e, hcp]
  refine ⟨hpresent, habsent, ?_, ?_⟩
  · intro stats1 stats2 env1 env2 sb h1 h2 h3 h4 h5 h6 h7 g1 g2 g3 g4
    rw [habsent stats1 env1 sb h1 h2 h3 h4 h5 h6 h7,
      hpresent stats2 env2 sb g1 g2 g3 g4]
    refine ⟨rfl, rfl, rfl, by simp, by simp⟩
  · intro stats env sb accessType hacc hobj hee hev hcp
    simp only [remoteWorkerPutNonblocking, if_neg hacc,
      hpresent stats env sb hobj hee hev hcp]
    simp [errorToErrno]

/-- C5 witness: two puts of the same 8-byte block — the first writes the
block and emits its index, the second skips the write, emits, and both
succeed; the worker completes after the emission with errno 0. -/
theorem putStoredBlock_idempotent_witness :
    putStoredBlock {} { encodeBlob := Blob.stored ⟨3, 8, 1⟩ } ⟨3, 8, 1⟩ =
      ({ putCount := 1, putByteCount := 8, putChunkCount := 1 },
        [Ev.backendWrite (GetBlockPath "chunks" 3), Ev.emitBlockIndex 3],
        none) ∧
    putStoredBlock { putCount := 1, putByteCount := 8, putChunkCount := 1 }
        { existsVal := true } ⟨3, 8, 1⟩ =
      ({ putCount := 2, putByteCount := 8, putChunkCount := 1 },
        [Ev.emitBlockIndex 3], none) :=
  ⟨(putStoredBlock_idempotent.2.1 {} { encodeBlob := Blob.stored ⟨3, 8, 1⟩ }
      ⟨3, 8, 1⟩ rfl rfl rfl rfl rfl rfl rfl).trans (by decide),
    (putStoredBlock_idempotent.1
      { putCount := 1, putByteCount := 8, putChunkCount := 1 }
      { existsVal := true } ⟨3, 8, 1⟩ rfl rfl rfl rfl).trans (by decide)⟩

/-- C10.  On a fresh key whose four write attempts all fail,
`putStoredBlock` increments `PutStoredBlock_FailCount` by one yet returns
the error derived from the encode status code — `0`, i.e. `nil` — so the
worker invokes the put completion callback with errno 0 despite the
write never having succeeded. -/
theorem putStoredBlock_silent_write_failure (stats : Stats) (env : PutEnv)
    (sb : StoredBlock) (hobj : env.newObjErr = none)
    (hee : env.existsErr = none) (hev : env.existsVal = false)
    (henc : env.encodeErrno = 0)
    (hw0 : writeFailed env.write0Ok env.write0Err = true)
    (hw1 : writeFailed env.write1Ok env.write1Err = true)
    (hw2 : writeFailed env.write2Ok env.write2Err = true)
    (hw3 : writeFailed env.write3Ok env.write3Err = true) :
    putStoredBlock stats env sb =
      ({ stats with
          putCount := stats.putCount + 1
          putRetryCount := stats.putRetryCount + 1 + 1 + 1
          putFailCount := stats.putFailCount + 1 },
        [Ev.backendWrite (GetBlockPath "chunks" sb.blockHash),
          Ev.backendWrite (GetBlockPath "chunks" sb.blockHash),
          Ev.backendWrite (GetBlockPath "chunks" sb.blockHash),
          Ev.backendWrite (GetBlockPath "chunks" sb.blockHash)], none) ∧
    (remoteWorkerPutNonblocking AccessType.readWrite stats env sb).2.getLast? =
      some (Ev.putComplete 0) := by
  have hput : putStoredBlock stats env sb =
      ({ stats with
          putCount := stats.putCount + 1
          putRetryCount := stats.putRetryCount + 1 + 1 + 1
          putFailCount := stats.putFailCount + 1 },
        [Ev.backendWrite (GetBlockPath "chunks" sb.blockHash),
          Ev.backendWrite (GetBlockPath "chunks" sb.blockHash),
          Ev.backendWrite (GetBlockPath "chunks" sb.blockHash),
          Ev.backendWrite (GetBlockPath "chunks" sb.blockHash)], none) := by
    simp [putStoredBlock, hobj, hee, hev, henc, hw0, hw1, hw2, hw3,
      errnoToError]
  refine ⟨hput, ?_⟩
  simp [remoteWorkerPutNonblocking, hput, errorToErrno]

/-- C10 witness: all four write attempts report `ok = false`; the fail
counter goes up, yet the worker completes the put with errno 0. -/
theorem putStoredBlock_silent_write_failure_witness :
    putStoredBlock {}
        { write0Ok := false, write1Ok := false, write2Ok := false,
          write3Ok := false } ⟨3, 8, 1⟩ =
      ({ putCount := 1, putRetryCount := 3, putFailCount := 1 },
        [Ev.backendWrite (GetBlockPath "chunks" 3),
          Ev.backendWrite (GetBlockPath "chunks" 3),
          Ev.backendWrite (GetBlockPath "chunks" 3),
          Ev.backendWrite (GetBlockPath "chunks" 3)], none) ∧
    (remoteWorkerPutNonblocking AccessType.readWrite {}
        { write0Ok := false, write1Ok := false, write2Ok := false,
          write3Ok := false } ⟨3, 8, 1⟩).2.getLast? =
      some (Ev.putComplete 0) :=
  ⟨((putStoredBlock_silent_write_failure {}
      { write0Ok := false, write1Ok := false, write2Ok := false,
        write3Ok := false } ⟨3, 8, 1⟩ rfl rfl rfl rfl rfl rfl rfl rfl).1).trans
    (by decide),
    (putStoredBlock_silent_write_failure {}
      { write0Ok := false, write1Ok := false, write2Ok := false,
        write3Ok := false } ⟨3, 8, 1⟩ rfl rfl rfl rfl rfl rfl rfl rfl).2⟩

/-! ## The optimistic CAS on the store index -/

/-- CAS trace events: the `LockWriteVersion`, `Read` and `Write` calls of
an attempt, tagged with the object key they act on. -/
inductive CasEv where
  | lockVersion (key : String)
  | readObj (key : String)
  | writeObj (key : String)
  deriving DecidableEq, Repr

/-- Modelled from the spec: the opaque store-index codec of
`longtaillib` (out of scope for the core), mirrored as Go multi-returns
`(value, errno)` — decode an index blob, merge two indexes, encode an
index.  The CAS control flow is proved for every codec. -/
structure Codec where
  readStoreIndexFromBuffer : Blob → StoreIndex × Nat
  mergeStoreIndex : StoreIndex → StoreIndex → StoreIndex × Nat
  writeStoreIndexToBuffer : StoreIndex → Blob × Nat

/-- One CAS attempt's backend outcomes on the index object:
`LockWriteVersion` (the existed flag, or an error), `Read`, and `Write`
(`ok = false` signals version drift). -/
structure CasEnv where
  lockResult : Except GoErr Bool
  readResult : Except GoErr Blob
  writeResult : Except GoErr Bool

/-- The `(ok, newStoreIndex, err)` result triple of
`tryUpdateRemoteStoreIndex`; the invalid `Longtail_StoreIndex{}` is
`none`. -/
structure TryResult where
  ok : Bool
  newIndex : Option StoreIndex
  err : Option GoErr
  deriving DecidableEq, Repr

/-- The body of `tryUpdateRemoteStoreIndex` after the `LockWriteVersion`
call: if the object existed, read and decode the remote index, merge the
updated index into it, encode, and write — version drift yields
`(false, ⊥, nil)`; if it did not exist, encode the updated index and
write it directly.  Every failing codec call or backend error returns a
wrapped error. -/
def tryUpdateCore (cd : Codec) (key : String) (env : CasEnv)
    (updatedStoreIndex : StoreIndex) : TryResult × List CasEv :=
  match env.lockResult with
  | Except.error e => (⟨false, none, some e⟩, [])
  | Except.ok existed =>
    if existed then
      match env.readResult with
      | Except.error e =>
        (⟨false, none, some (GoErr.wrap e)⟩, [CasEv.readObj key])
      | Except.ok blob =>
        match cd.readStoreIndexFromBuffer blob with
        | (remoteStoreIndex, errno) =>
          if errno ≠ 0 then
            (⟨false, none, some (GoErr.wrap (GoErr.errnoErr errno))⟩,
              [CasEv.readObj key])
          else
            match cd.mergeStoreIndex updatedStoreIndex remoteStoreIndex with
            | (newStoreIndex, errno2) =>
              if errno2 ≠ 0 then
                (⟨false, none, some (GoErr.wrap (GoErr.errnoErr errno2))⟩,
                  [CasEv.readObj key])
              else
                match cd.writeStoreIndexToBuffer newStoreIndex with
                | (_, errno3) =>
                  if errno3 ≠ 0 then
                    (⟨false, none,
                        some (GoErr.wrap (GoErr.errnoErr errno3))⟩,
                      [CasEv.readObj key])
                  else
                    match env.writeResult with
                    | Except.error e =>
                      (⟨false, none, some (GoErr.wrap e)⟩,
                        [CasEv.readObj key, CasEv.writeObj key])
                    | Except.ok ok =>
                      if ok then
                        (⟨true, some newStoreIndex, none⟩,
                          [CasEv.readObj key, CasEv.writeObj key])
                      else
                        (⟨false, none, none⟩,
                          [CasEv.readObj key, CasEv.writeObj key])
    else
      match cd.writeStoreIndexToBuffer updatedStoreIndex with
      | (_, errno) =>
        if errno ≠ 0 then
          (⟨false, none, some (GoErr.wrap (GoErr.errnoErr errno))⟩, [])
        else
          match env.writeResult with
          | Except.error e =>
            (⟨false, none, some (GoErr.wrap e)⟩, [CasEv.writeObj key])
          | Except.ok ok => (⟨ok, none, none⟩, [CasEv.writeObj key])

/-- `tryUpdateRemoteStoreIndex` (remotestore.go): one optimistic CAS
attempt — it always calls `LockWriteVersion` on the object first. -/
def tryUpdateRemoteStoreIndex (cd : Codec) (key : String) (env : CasEnv)
    (updatedStoreIndex : StoreIndex) : TryResult × List CasEv :=
  match tryUpdateCore cd key env updatedStoreIndex with
  | (r, tr) => (r, CasEv.lockVersion key :: tr)

/-- The object key of the persisted store index. -/
def storeIndexKey : String := "store.lsi"

/-- `updateRemoteStoreIndex` (remotestore.go): repeat
`tryUpdateRemoteStoreIndex` on the `store.lsi` handle until an attempt
returns `ok` (its index is returned so the caller may replace its local
copy) or fails with an error; a drifted write (`ok = false`, `err = nil`)
logs and retries.  The modelled backend outcomes of the successive
attempts form a list; `none` means the loop is still running when the
modelled outcomes run out. -/
def updateRemoteStoreIndex (cd : Codec) (envs : List CasEnv)
    (updatedStoreIndex : StoreIndex) :
    Option (Option GoErr × Option StoreIndex) × List CasEv :=
  match envs with
  | [] => (none, [])
  | env :: rest =>
    match tryUpdateRemoteStoreIndex cd storeIndexKey env updatedStoreIndex with
    | (r, tr) =>
      if r.ok then (some (none, r.newIndex), tr)
      else
        match r.err with
        | some e => (some (some (GoErr.wrap e), none), tr)
        | none =>
          match updateRemoteStoreIndex cd rest updatedStoreIndex with
          | (res, tr2) => (res, tr ++ tr2)

/-- C1.  Every attempt locks the write version of `store.lsi` first;
when the object existed, a successful attempt reads, decodes, merges,
encodes and writes, and the loop returns the *merged* index; a drifted
write retries the whole attempt; when the object did not exist, the new
index is encoded and written directly, drift again retrying; and any run
of drifted attempts leaves the loop's result that of the remaining
attempts. -/
theorem updateRemoteStoreIndex_correct (cd : Codec)
    (updatedStoreIndex : StoreIndex) :
    (∀ env, (tryUpdateRemoteStoreIndex cd storeIndexKey env
        updatedStoreIndex).2.head? = some (CasEv.lockVersion storeIndexKey)) ∧
    (∀ env (rest : List CasEnv) blob remote merged sblob,
      env.lockResult = Except.ok true → env.readResult = Except.ok blob →
      cd.readStoreIndexFromBuffer blob = (remote, 0) →
      cd.mergeStoreIndex updatedStoreIndex remote = (merged, 0) →
      cd.writeStoreIndexToBuffer merged = (sblob, 0) →
      env.writeResult = Except.ok true →
      tryUpdateRemoteStoreIndex cd storeIndexKey env updatedStoreIndex =
        (⟨true, some merged, none⟩,
          [CasEv.lockVersion storeIndexKey, CasEv.readObj storeIndexKey,
            CasEv.writeObj storeIndexKey]) ∧
      updateRemoteStoreIndex cd (env :: rest) updatedStoreIndex =
        (some (none, some merged),
          [CasEv.lockVersion storeIndexKey, CasEv.readObj storeIndexKey,
            CasEv.writeObj storeIndexKey])) ∧
    (∀ env (rest : List CasEnv) blob remote merged sblob,
      env.lockResult = Except.ok true → env.readResult = Except.ok blob →
      cd.readStoreIndexFromBuffer blob = (remote, 0) →
      cd.mergeStoreIndex updatedStoreIndex remote = (merged, 0) →
      cd.writeStoreIndexToBuffer merged = (sblob, 0) →
      env.writeResult = Except.ok false →
      tryUpdateRemoteStoreIndex cd storeIndexKey env updatedStoreIndex =
        (⟨false, none, none⟩,
          [CasEv.lockVersion storeIndexKey, CasEv.readObj storeIndexKey,
            CasEv.writeObj storeIndexKey]) ∧
      updateRemoteStoreIndex cd (env :: rest) updatedStoreIndex =
        ((updateRemoteStoreIndex cd rest updatedStoreIndex).1,
          [CasEv.lockVersion storeIndexKey, CasEv.readObj storeIndexKey,
            CasEv.writeObj storeIndexKey] ++
            (updateRemoteStoreIndex cd rest updatedStoreIndex).2)) ∧
    (∀ env (rest : List CasEnv) sblob,
      env.lockResult = Except.ok false →
      cd.writeStoreIndexToBuffer updatedStoreIndex = (sblob, 0) →
      env.writeResult = Except.ok true →
      tryUpdateRemoteStoreIndex cd storeIndexKey env updatedStoreIndex =
        (⟨true, none, none⟩,
          [CasEv.lockVersion storeIndexKey, CasEv.writeObj storeIndexKey]) ∧
      updateRemoteStoreIndex cd (env :: rest) updatedStoreIndex =
        (some (none, none),
          [CasEv.lockVersion storeIndexKey, CasEv.writeObj storeIndexKey])) ∧
    (∀ env (rest : List CasEnv) sblob,
      env.lockResult = Except.ok false →
      cd.writeStoreIndexToBuffer updatedStoreIndex = (sblob, 0) →
      env.writeResult = Except.ok false →
      tryUpdateRemoteStoreIndex cd storeIndexKey env updatedStoreIndex =
        (⟨false, none, none⟩,
          [CasEv.lockVersion storeIndexKey, CasEv.writeObj storeIndexKey]) ∧
      updateRemoteStoreIndex cd (env :: rest) updatedStoreIndex =
        ((updateRemoteStoreIndex cd rest updatedStoreIndex).1,
          [CasEv.lockVersion storeIndexKey, CasEv.writeObj storeIndexKey] ++
            (updateRemoteStoreIndex cd rest updatedStoreIndex).2)) ∧
    (∀ envs1 envs2 : List CasEnv,
      (∀ e ∈ envs1, (tryUpdateRemoteStoreIndex cd storeIndexKey e
        updatedStoreIndex).1 = ⟨false, none, none⟩) →
      (updateRemoteStoreIndex cd (envs1 ++ envs2) updatedStoreIndex).1 =
        (updateRemoteStoreIndex cd envs2 updatedStoreIndex).1) := by
  refine ⟨?_, ?_, ?_, ?_, ?_, ?_⟩
  · intro env
    rfl
  · intro env rest blob remote merged sblob hlock hread hrd hmg hwr hw
    have htry : tryUpdateRemoteStoreIndex cd storeIndexKey env
        updatedStoreIndex =
        (⟨true, some merged, none⟩,
          [CasEv.lockVersion storeIndexKey, CasEv.readObj storeIndexKey,
            CasEv.writeObj storeIndexKey]) := by
      simp [tryUpdateRemoteStoreIndex, tryUpdateCore, hlock, hread, hrd,
        hmg, hwr, hw]
    exact ⟨htry, by simp [updateRemoteStoreIndex, htry]⟩
  · intro env rest blob remote merged sblob hlock hread hrd hmg hwr hw
    have htry : tryUpdateRemoteStoreIndex cd storeIndexKey env
        updatedStoreIndex =
        (⟨false, none, none⟩,
          [CasEv.lockVersion storeIndexKey, CasEv.readObj storeIndexKey,
            CasEv.writeObj storeIndexKey]) := by
      simp [tryUpdateRemoteStoreIndex, tryUpdateCore, hlock, hread, hrd,
        hmg, hwr, hw]
    exact ⟨htry, by simp [updateRemoteStoreIndex, htry]⟩
  · intro env rest sblob hlock hwr hw
    have htry : tryUpdateRemoteStoreIndex cd storeIndexKey env
        updatedStoreIndex =
        (⟨true, none, none⟩,
          [CasEv.lockVersion storeIndexKey, CasEv.writeObj storeIndexKey]) := by
      simp [tryUpdateRemoteStoreIndex, tryUpdateCore, hlock, hwr, hw]
    exact ⟨htry, by simp [updateRemoteStoreIndex, htry]⟩
  · intro env rest sblob hlock hwr hw
    have htry : tryUpdateRemoteStoreIndex cd storeIndexKey env
        updatedStoreIndex =
        (⟨false, none, none⟩,
          [CasEv.lockVersion storeIndexKey, CasEv.writeObj storeIndexKey]) := by
      simp [tryUpdateRemoteStoreIndex, tryUpdateCore, hlock, hwr, hw]
    exact ⟨htry, by simp [updateRemoteStoreIndex, htry]⟩
  · intro envs1 envs2 hdr
    induction envs1 with
    | nil => simp
    | cons e es ih =>
      have he := hdr e (List.mem_cons_self e es)
      rcases htry : tryUpdateRemoteStoreIndex cd storeIndexKey e
          updatedStoreIndex with ⟨r, tr⟩
      rw [htry] at he
      simp only at he
      subst he
      simp only [List.cons_append, updateRemoteStoreIndex, htry]
      exact ih (fun e2 he2 => hdr e2 (List.mem_cons_of_mem e he2))

/-- A concrete total codec used for evaluation: blobs wrap indexes
verbatim and merging concatenates the hash lists. -/
def listCodec : Codec where
  readStoreIndexFromBuffer := fun b =>
    match b with
    | Blob.index si => (si, 0)
    | _ => ([], EBADF)
  mergeStoreIndex := fun a b => (a ++ b, 0)
  writeStoreIndexToBuffer := fun si => (Blob.index si, 0)

/-- C1 witness: a first attempt whose write drifts, then a second
attempt that merges `[1]` into the re-read remote `[2, 3]` and returns
the merged index. -/
theorem updateRemoteStoreIndex_correct_witness :
    (updateRemoteStoreIndex listCodec
      [⟨Except.ok true, Except.ok (Blob.index [2]), Except.ok false⟩,
        ⟨Except.ok true, Except.ok (Blob.index [2, 3]), Except.ok true⟩]
      [1]).1 = some (none, some [1, 2, 3]) := by
  have hpre := (updateRemoteStoreIndex_correct listCodec [1]).2.2.2.2.2
    [⟨Except.ok true, Except.ok (Blob.index [2]), Except.ok false⟩]
    [⟨Except.ok true, Except.ok (Blob.index [2, 3]), Except.ok true⟩]
    (by intro e he
        simp only [List.mem_singleton] at he
        subst he
        decide)
  rw [List.singleton_append] at hpre
  rw [hpre]
  have hsucc := ((updateRemoteStoreIndex_correct listCodec [1]).2.1
    ⟨Except.ok true, Except.ok (Blob.index [2, 3]), Except.ok true⟩ []
    (Blob.index [2, 3]) [2, 3] [1, 2, 3] (Blob.index [1, 2, 3])
    rfl rfl rfl rfl rfl rfl).2
  rw [hsucc]

end RemoteStore
